import Mathlib

/-!
Verification of the CJWorkbench `transpose` module.

The development embeds `src/transpose.py` shallowly:

* tables are lists of named, typed columns of cells (`Table`, `TColumn`, `Cell`);
* `render` mirrors `transpose.render`, returning both the result
  (`RenderResult`, a bare table or a table paired with warnings, exactly as
  the Python function returns either `ret` or `(ret, warnings)`) and the
  final state of the caller's table object (the Python code mutates the
  caller's frame with `table.drop(..., inplace=True)` and friends unless
  `table.truncate` rebound the local variable first);
* the column-name sanitizer `gen_unique_clean_colnames`, imported by the
  source from `cjwmodule.util.colnames` and absent from the repository, is
  modelled from the specification;
* `_gen_colnames_and_warn`'s warning aggregation loop is embedded faithfully
  as a fold (`aggStep` / `warningsFromFlags`).

Machine text is modelled with Lean `String`s; byte lengths are measured by
`utf8Len` (the sum of the UTF-8 sizes of the characters).
-/

/-- Hard-coded settings, mirroring `Settings` and the module-level
`settings = Settings(99, 120)` of the source. -/
structure Settings where
  MAX_COLUMNS_PER_TABLE : Nat
  MAX_BYTES_PER_COLUMN_NAME : Nat
deriving DecidableEq

/-- The module-level constant `settings = Settings(99, 120)`. -/
def settings : Settings := ⟨99, 120⟩

/-- The decimal digit character for a digit value (`0 ↦ '0'`, …). -/
def digitChar (d : Nat) : Char := Char.ofNat (48 + d)

/-- Fuel-driven little-recursion producing the decimal digits of `n`,
most significant first.  With fuel at least the number of digits this is
the usual decimal representation. -/
def natChars : Nat → Nat → List Char
  | 0, _ => []
  | fuel + 1, n => if n < 10 then [digitChar n] else natChars fuel (n / 10) ++ [digitChar (n % 10)]

/-- Decimal string of a natural number (used for positional default names
and duplicate-numbering suffixes). -/
def natStr (n : Nat) : String := String.mk (natChars (n + 1) n)

/-- Byte length of a string: the sum of the UTF-8 sizes of its characters. -/
def utf8Len (s : String) : Nat := (s.data.map Char.utf8Size).sum

/-- Longest prefix of a character list whose total UTF-8 size fits in the
byte budget; never splits inside a character. -/
def takeBytes : Nat → List Char → List Char
  | _, [] => []
  | b, c :: cs => if c.utf8Size ≤ b then c :: takeBytes (b - c.utf8Size) cs else []

/-- Truncate a string to at most `b` UTF-8 bytes on a character boundary. -/
def truncBytes (b : Nat) (s : String) : String := String.mk (takeBytes b s.data)

/-- Modelled from the spec: step 1 of the Name Sanitizer, which strips
characters that are unsafe for a display name (non-printable / control
characters).  The concrete character set is the ASCII control range. -/
def cleanColname (s : String) : String :=
  String.mk (s.data.filter fun c => decide (32 ≤ c.toNat ∧ c.toNat ≠ 127))

/-- Modelled from the spec: the positional default name `Column <1-based
position>` used for candidates that are empty after cleaning. -/
def defaultName (pos : Nat) : String := "Column " ++ natStr pos

/-- The duplicate-numbering suffix: a separator followed by the decimal
integer, e.g. `" 2"`. -/
def sfxStr (k : Nat) : String := String.mk (' ' :: natChars (k + 1) k)

/-- Modelled from the spec: a numbered candidate.  The base is re-truncated
so that base plus suffix still fits the configured byte limit. -/
def numberedName (base : String) (k : Nat) : String :=
  truncBytes (settings.MAX_BYTES_PER_COLUMN_NAME - utf8Len (sfxStr k)) base ++ sfxStr k

/-- Modelled from the spec: the first integer `k ≥ 2` whose numbered
candidate avoids the forbidden names.  The search range
`2, …, forbidden.length + 2` always contains a free candidate (the
numbered candidates are pairwise distinct), so the fallback byte of the
`match` is never reached; this is proved in `firstFreeK_spec` below. -/
def firstFreeK (forbidden : List String) (base : String) : Nat :=
  match (List.range (forbidden.length + 1)).find?
      (fun i => decide (numberedName base (i + 2) ∉ forbidden)) with
  | some i => i + 2
  | none => forbidden.length + 2

/-- One entry of the sanitizer's output: the final name tagged with the
categories that fired, mirroring `cjwmodule`'s `UniqueCleanColname`. -/
structure UCColname where
  name : String
  is_ascii_cleaned : Bool
  is_default : Bool
  is_truncated : Bool
  is_numbered : Bool
deriving DecidableEq

/-- Modelled from the spec: processing of a single candidate, in order:
ASCII-clean, default when empty, truncate to the byte limit, and number on
collision with an already-assigned name.  The numeric search also avoids
the default fallback names of the not-yet-processed candidates
(`reserved`). -/
def processOne (s : String) (pos : Nat) (used reserved : List String) : UCColname :=
  let cleaned := cleanColname s
  let base := if cleaned = "" then defaultName pos else cleaned
  let trunc := truncBytes settings.MAX_BYTES_PER_COLUMN_NAME base
  if trunc ∈ used then
    { name := numberedName trunc (firstFreeK (used ++ reserved) trunc)
      is_ascii_cleaned := cleaned != s
      is_default := cleaned == ""
      is_truncated := trunc != base
      is_numbered := true }
  else
    { name := trunc
      is_ascii_cleaned := cleaned != s
      is_default := cleaned == ""
      is_truncated := trunc != base
      is_numbered := false }

/-- Modelled from the spec: the default fallback names of a list of not yet
processed candidates starting at 1-based position `pos`. -/
def reservedDefaults : List String → Nat → List String
  | [], _ => []
  | s :: rest, pos =>
    (if cleanColname s = "" then [defaultName pos] else []) ++ reservedDefaults rest (pos + 1)

/-- Modelled from the spec: strictly left-to-right processing of the
candidates; earlier names are never renamed to accommodate later ones. -/
def processNames : List String → Nat → List String → List UCColname
  | [], _, _ => []
  | s :: rest, pos, used =>
    let u := processOne s pos used (reservedDefaults rest (pos + 1))
    u :: processNames rest (pos + 1) (used ++ [u.name])

/-- Modelled from the spec: `cjwmodule.util.colnames.gen_unique_clean_colnames`,
which the source imports and which is not part of this repository.  It maps
the ordered candidate sequence to unique, non-empty, length-bounded names,
flagging every deviation. -/
def gen_unique_clean_colnames (names : List String) : List UCColname :=
  processNames names 1 []

/-- A quick-fix suggestion attached to a warning, mirroring the
`{"text": ..., "action": "prependModule", "args": [moduleId, {"colnames": ...}]}`
dictionaries of the source (the i18n display text is out of scope). -/
structure QuickFix where
  action : String
  moduleId : String
  colnames : List String
deriving DecidableEq

/-- The structured warnings of the module.  Each constructor carries the
data the source feeds into the corresponding i18n message (the catalog
text itself is out of scope). -/
inductive Warning
  | tooManyRows (maxColumns : Nat)
  | headersToText (columnName : String) (quickFixes : List QuickFix)
  | differentTypes (nColumns : Nat) (columnNames : List String) (quickFixes : List QuickFix)
  | removedSpecialChars (nColumns : Nat) (first : Option String)
  | renamedEmpty (nColumns : Nat) (first : Option String)
  | truncatedNames (nColumns : Nat) (first : Option String) (nBytes : Nat)
  | renamedDuplicates (nColumns : Nat) (first : Option String)
deriving DecidableEq

/-- The counters and first-example registers of `_gen_colnames_and_warn`'s
loop (`n_ascii_cleaned`, `first_ascii_cleaned`, …). -/
structure AggState where
  n_ascii : Nat
  first_ascii : Option String
  n_dflt : Nat
  first_dflt : Option String
  n_trunc : Nat
  first_trunc : Option String
  n_numbered : Nat
  first_numbered : Option String
deriving DecidableEq

/-- The all-zero initial state of the aggregation loop. -/
def initAgg : AggState := ⟨0, none, 0, none, 0, none, 0, none⟩

/-- One iteration of `_gen_colnames_and_warn`'s `for` loop: bump the
counter of every flag the entry carries, remembering the first affected
name per category. -/
def aggStep (st : AggState) (u : UCColname) : AggState :=
  { n_ascii := if u.is_ascii_cleaned then st.n_ascii + 1 else st.n_ascii
    first_ascii := if u.is_ascii_cleaned && st.n_ascii == 0 then some u.name else st.first_ascii
    n_dflt := if u.is_default then st.n_dflt + 1 else st.n_dflt
    first_dflt := if u.is_default && st.n_dflt == 0 then some u.name else st.first_dflt
    n_trunc := if u.is_truncated then st.n_trunc + 1 else st.n_trunc
    first_trunc := if u.is_truncated && st.n_trunc == 0 then some u.name else st.first_trunc
    n_numbered := if u.is_numbered then st.n_numbered + 1 else st.n_numbered
    first_numbered := if u.is_numbered && st.n_numbered == 0 then some u.name else st.first_numbered }

/-- The warning list built after the loop: one aggregated warning per
category actually triggered, in the source's fixed order. -/
def warningsFromFlags (ucs : List UCColname) : List Warning :=
  let st := ucs.foldl aggStep initAgg
  (if 0 < st.n_ascii then [Warning.removedSpecialChars st.n_ascii st.first_ascii] else []) ++
  (if 0 < st.n_dflt then [Warning.renamedEmpty st.n_dflt st.first_dflt] else []) ++
  (if 0 < st.n_trunc then
    [Warning.truncatedNames st.n_trunc st.first_trunc settings.MAX_BYTES_PER_COLUMN_NAME]
   else []) ++
  (if 0 < st.n_numbered then [Warning.renamedDuplicates st.n_numbered st.first_numbered] else [])

/-- Result of `_gen_colnames_and_warn`. -/
structure GenColnamesResult where
  names : List String
  warnings : List Warning
deriving DecidableEq

/-- `_gen_colnames_and_warn(first_colname, first_column)`: the candidate at
position 0 is `first_colname or first_column.name` (Python truthiness:
the override is used whenever it is a non-empty string), followed by the
column's values; the unified sanitization pass runs over the whole list. -/
def gen_colnames_and_warn (first_colname : String) (pivotName : String)
    (vals : List String) : GenColnamesResult :=
  let input_names := (if first_colname = "" then pivotName else first_colname) :: vals
  let ucs := gen_unique_clean_colnames input_names
  ⟨ucs.map (fun u => u.name), warningsFromFlags ucs⟩

/-- Declared column types of the workbench's column metadata. -/
inductive CType
  | text
  | number
  | timestamp
  | other
deriving DecidableEq

/-- A cell value: missing (`NaN`), or a typed value. -/
inductive Cell
  | null
  | text (s : String)
  | number (n : Int)
  | timestamp (t : Int)
deriving DecidableEq

/-- Python `str()` of a present cell value (the canonical text
representation used by `astype(str)`). -/
def cellToStr : Cell → String
  | Cell.null => "nan"
  | Cell.text s => s
  | Cell.number n => toString n
  | Cell.timestamp t => toString t

/-- Lines 170–176 of the source applied to one header value: missing
values map to the empty string, everything else to its `str()`. -/
def cellHeaderText : Cell → String
  | Cell.null => ""
  | c => cellToStr c

/-- Lines 213–217 of the source applied to one data cell: `astype(str)`
followed by re-inserting `NaN` at the positions that were missing. -/
def coerceCell : Cell → Cell
  | Cell.null => Cell.null
  | c => Cell.text (cellToStr c)

/-- A named column of the table with its cell values. -/
structure TColumn where
  name : String
  cells : List Cell
deriving DecidableEq

/-- Text-coercion of a whole column. -/
def coerceCol (c : TColumn) : TColumn := ⟨c.name, c.cells.map coerceCell⟩

/-- A pandas-like table: a row count (the length of the index, which is
what Python's `len(table)` returns even for a table with no columns), an
optional list of index labels (`none` is the default range index), and the
ordered named columns. -/
structure Table where
  nRows : Nat
  index : Option (List String)
  cols : List TColumn
deriving DecidableEq

/-- Well-formedness: every column has exactly `nRows` cells. -/
def Table.WF (t : Table) : Prop := ∀ c ∈ t.cols, c.cells.length = t.nRows

/-- `pd.DataFrame()`. -/
def emptyTable : Table := ⟨0, none, []⟩

/-- An entry of the caller-supplied `input_columns` metadata mapping
(`Column(name, type)`). -/
structure ColumnSpec where
  name : String
  type : CType
deriving DecidableEq

/-- The `input_columns` mapping of `render`, keyed by column name. -/
abbrev InputColumns := List ColumnSpec

/-- `input_columns[name].type` (the host guarantees the key is present;
missing keys default to text in the model). -/
def lookupType (ic : InputColumns) (nm : String) : CType :=
  match ic.find? (fun c => c.name == nm) with
  | some c => c.type
  | none => CType.text

/-- The recognized parameters of the module. -/
structure Params where
  firstcolname : String
deriving DecidableEq

/-- The shape of `render`'s return value: either the bare table or the
table paired with the warning list. -/
inductive RenderResult
  | bare (t : Table)
  | withWarnings (t : Table) (ws : List Warning)
deriving DecidableEq

/-- The table component of a render result. -/
def RenderResult.tableOf : RenderResult → Table
  | RenderResult.bare t => t
  | RenderResult.withWarnings t _ => t

/-- The warnings carried by a render result (none for a bare table). -/
def RenderResult.warningList : RenderResult → List Warning
  | RenderResult.bare _ => []
  | RenderResult.withWarnings _ ws => ws

/-- `table.truncate(after=settings.MAX_COLUMNS_PER_TABLE - 1)`: keep the
first `MAX_COLUMNS_PER_TABLE` rows of every column (the source only calls
this on default-indexed tables, where label-based and positional
truncation agree). -/
def truncateTable (t : Table) : Table :=
  { nRows := settings.MAX_COLUMNS_PER_TABLE
    index := t.index.map (fun l => l.take settings.MAX_COLUMNS_PER_TABLE)
    cols := t.cols.map (fun c => ⟨c.name, c.cells.take settings.MAX_COLUMNS_PER_TABLE⟩) }

/-- The local `table` variable after the row cap: rebound to a truncated
copy when the row count exceeds the limit, otherwise still the caller's
object. -/
def truncIfNeeded (t : Table) : Table :=
  if settings.MAX_COLUMNS_PER_TABLE < t.nRows then truncateTable t else t

/-- The `tooManyRows` warning emitted by the row cap (lines 130–137). -/
def tooManyWarnings (t : Table) : List Warning :=
  if settings.MAX_COLUMNS_PER_TABLE < t.nRows
  then [Warning.tooManyRows settings.MAX_COLUMNS_PER_TABLE]
  else []

/-- The header-coercion warning (lines 147–168): emitted exactly when the
pivot column's declared type is not text, with a quick-fix converting that
column. -/
def hdrWarnings (ic : InputColumns) (pivotName : String) : List Warning :=
  if lookupType ic pivotName ≠ CType.text
  then [Warning.headersToText pivotName [⟨"prependModule", "converttotext", [pivotName]⟩]]
  else []

/-- Line 181: the distinct declared types of the metadata entries other
than the pivot column. -/
def nonPivotTypes (ic : InputColumns) (pivotName : String) : List CType :=
  ((ic.filter (fun c => c.name ≠ pivotName)).map (fun c => c.type)).dedup

/-- Line 185: the names of the remaining table columns whose declared type
is not text. -/
def toConvert (ic : InputColumns) (cols : List TColumn) : List String :=
  (cols.filter (fun c => lookupType ic c.name ≠ CType.text)).map (fun c => c.name)

/-- Lines 182–211: the cross-column type-unification warning, emitted
exactly when more than one distinct non-pivot type is declared. -/
def typeWarnings (ic : InputColumns) (pivotName : String) (cols : List TColumn) : List Warning :=
  if 1 < (nonPivotTypes ic pivotName).length then
    [Warning.differentTypes (toConvert ic cols).length (toConvert ic cols)
      [⟨"prependModule", "converttotext", toConvert ic cols⟩]]
  else []

/-- Lines 213–217: when the type-unification branch fires, every remaining
column with a non-text declared type is coerced to text with missing
values kept missing. -/
def coerceCols (ic : InputColumns) (pivotName : String) (cols : List TColumn) : List TColumn :=
  if 1 < (nonPivotTypes ic pivotName).length then
    cols.map (fun c => if lookupType ic c.name ≠ CType.text then coerceCol c else c)
  else cols

/-- `table.drop(column, axis=1)`: removal by label. -/
def dropPivot (cols : List TColumn) (pivotName : String) : List TColumn :=
  cols.filter (fun c => c.name ≠ pivotName)

/-- The coerced header values of the pivot column fed to the sanitizer. -/
def headerVals (pivot : TColumn) : List String := pivot.cells.map cellHeaderText

/-- The name generation of line 178 for a concrete pivot column. -/
def genFor (params : Params) (pivot : TColumn) : GenColnamesResult :=
  gen_colnames_and_warn params.firstcolname pivot.name (headerVals pivot)

/-- Lines 219–225: set the index to the generated data-column names,
transpose, name the index after the generated first name and reset it into
a column.  Output row `k` is the `k`-th remaining input column; output
column `0` holds the former column names; output column `r + 1` holds the
values of former row `r`. -/
def transposeTable (names : List String) (cols : List TColumn) : Table :=
  { nRows := cols.length
    index := none
    cols := ⟨names.headD "", cols.map (fun c => Cell.text c.name)⟩ ::
      (List.enum names.tail).map
        (fun p => ⟨p.2, cols.map (fun c => c.cells.getD p.1 Cell.null)⟩) }

/-- `transpose.render(table, params, input_columns=...)`.

The first component is the Python return value; the second is the caller's
table object after the call.  The source mutates the caller's table
(`drop(..., inplace=True)`, in-place cell coercion, index assignment)
except when the row cap rebound the local variable to a truncated copy, or
when the zero-column early return fires before any mutation. -/
def render (t : Table) (params : Params) (ic : InputColumns) : RenderResult × Table :=
  let t1 := truncIfNeeded t
  if t1.cols = [] then (RenderResult.bare emptyTable, t)
  else
    let pivot := t1.cols.headD ⟨"", []⟩
    let dropped := dropPivot t1.cols pivot.name
    let gen := genFor params pivot
    let coerced := coerceCols ic pivot.name dropped
    let ws := tooManyWarnings t ++ hdrWarnings ic pivot.name ++ gen.warnings ++
      typeWarnings ic pivot.name dropped
    let outT := transposeTable gen.names coerced
    let callerT :=
      if settings.MAX_COLUMNS_PER_TABLE < t.nRows then t
      else { t1 with cols := coerced, index := some gen.names.tail }
    (if ws = [] then RenderResult.bare outT else RenderResult.withWarnings outT ws, callerT)

/-- Classifier: is this the row-truncation warning? -/
def Warning.isTooMany : Warning → Bool
  | Warning.tooManyRows _ => true
  | _ => false

/-- Classifier: is this the header-coerced-to-text warning? -/
def Warning.isHeaders : Warning → Bool
  | Warning.headersToText _ _ => true
  | _ => false

/-- Classifier: is this the cross-column type-unification warning? -/
def Warning.isDiffTypes : Warning → Bool
  | Warning.differentTypes _ _ _ => true
  | _ => false

/-- Replace the cell at row `r` of the first (pivot) column. -/
def setPivotCell (t : Table) (r : Nat) (v : Cell) : Table :=
  { t with cols := match t.cols with
      | [] => []
      | c :: rest => ⟨c.name, c.cells.set r v⟩ :: rest }

/-- Decimal value of a digit-character list, most significant first (the
left inverse of `natChars` used to prove injectivity). -/
def digitsVal (l : List Char) : Nat := l.foldl (fun a c => 10 * a + (c.toNat - 48)) 0

theorem digitChar_ne_space {d : Nat} (h : d < 10) : digitChar d ≠ ' ' := by
  interval_cases d <;> decide

theorem utf8Size_digitChar {d : Nat} (h : d < 10) : (digitChar d).utf8Size = 1 := by
  interval_cases d <;> decide

theorem toNat_digitChar {d : Nat} (h : d < 10) : (digitChar d).toNat = 48 + d := by
  interval_cases d <;> decide

theorem utf8Size_le_four (c : Char) : c.utf8Size ≤ 4 := by
  unfold Char.utf8Size
  simp only []
  split
  · omega
  · split
    · omega
    · split <;> omega

theorem mem_natChars : ∀ (f n : Nat), ∀ c ∈ natChars f n, ∃ d, d < 10 ∧ c = digitChar d := by
  intro f
  induction f with
  | zero => intro n c hc; simp [natChars] at hc
  | succ g ih =>
    intro n c hc
    by_cases hn : n < 10
    · simp only [natChars, if_pos hn, List.mem_singleton] at hc
      exact ⟨n, hn, hc⟩
    · simp only [natChars, if_neg hn, List.mem_append, List.mem_singleton] at hc
      rcases hc with hc | hc
      · exact ih (n / 10) c hc
      · exact ⟨n % 10, Nat.mod_lt _ (by omega), hc⟩

theorem natChars_ne_nil {f n : Nat} (hf : 0 < f) : natChars f n ≠ [] := by
  cases f with
  | zero => omega
  | succ g =>
    by_cases hn : n < 10
    · simp [natChars, if_pos hn]
    · simp [natChars, if_neg hn]

theorem digitsVal_append_digit (l : List Char) (c : Char) :
    digitsVal (l ++ [c]) = 10 * digitsVal l + (c.toNat - 48) := by
  simp [digitsVal, List.foldl_append]

theorem digitsVal_natChars : ∀ (f n : Nat), n < 10 ^ f → digitsVal (natChars f n) = n := by
  intro f
  induction f with
  | zero => intro n hn; interval_cases n; rfl
  | succ g ih =>
    intro n hn
    by_cases h10 : n < 10
    · simp only [natChars, if_pos h10]
      simp [digitsVal, toNat_digitChar h10]
    · simp only [natChars, if_neg h10]
      rw [digitsVal_append_digit]
      have hdiv : n / 10 < 10 ^ g := by
        rw [Nat.div_lt_iff_lt_mul (by norm_num)]
        calc n < 10 ^ (g + 1) := hn
        _ = 10 ^ g * 10 := by ring
      rw [ih (n / 10) hdiv, toNat_digitChar (Nat.mod_lt _ (by omega))]
      omega

theorem natStr_inj {a b : Nat} (h : natStr a = natStr b) : a = b := by
  have ha : a < 10 ^ (a + 1) :=
    lt_of_lt_of_le (Nat.lt_pow_self (by norm_num) a) (Nat.pow_le_pow_right (by norm_num) (by omega))
  have hb : b < 10 ^ (b + 1) :=
    lt_of_lt_of_le (Nat.lt_pow_self (by norm_num) b) (Nat.pow_le_pow_right (by norm_num) (by omega))
  have hdata : natChars (a + 1) a = natChars (b + 1) b := congrArg String.data h
  calc a = digitsVal (natChars (a + 1) a) := (digitsVal_natChars _ _ ha).symm
  _ = digitsVal (natChars (b + 1) b) := by rw [hdata]
  _ = b := digitsVal_natChars _ _ hb

theorem natChars_length_le : ∀ (f L n : Nat), 0 < L → n < 10 ^ L → (natChars f n).length ≤ L := by
  intro f
  induction f with
  | zero => intro L n _ _; simp [natChars]
  | succ g ih =>
    intro L n hL hn
    by_cases h10 : n < 10
    · simp only [natChars, if_pos h10, List.length_singleton]
      omega
    · simp only [natChars, if_neg h10, List.length_append, List.length_singleton]
      have hL2 : 2 ≤ L := by
        by_contra hc
        have : L = 1 := by omega
        subst this
        simp at hn
        omega
      have hdiv : n / 10 < 10 ^ (L - 1) := by
        rw [Nat.div_lt_iff_lt_mul (by norm_num)]
        calc n < 10 ^ L := hn
        _ = 10 ^ (L - 1) * 10 := by
          rw [← pow_succ]
          congr 1
          omega
      have := ih (L - 1) (n / 10) (by omega) hdiv
      omega

theorem takeBytes_sum_le : ∀ (b : Nat) (l : List Char), ((takeBytes b l).map Char.utf8Size).sum ≤ b := by
  intro b l
  induction l generalizing b with
  | nil => simp [takeBytes]
  | cons c cs ih =>
    by_cases hc : c.utf8Size ≤ b
    · simp only [takeBytes, if_pos hc, List.map_cons, List.sum_cons]
      have := ih (b - c.utf8Size)
      omega
    · simp [takeBytes, if_neg hc]

theorem string_eq_empty_iff {s : String} : s = "" ↔ s.data = [] := by
  constructor
  · intro h; subst h; rfl
  · intro h
    cases s with
    | mk d => cases h; rfl

theorem takeBytes_ne_nil {b : Nat} {l : List Char} (hl : l ≠ []) (hb : 4 ≤ b) :
    takeBytes b l ≠ [] := by
  cases l with
  | nil => exact absurd rfl hl
  | cons c cs =>
    have : c.utf8Size ≤ b := le_trans (utf8Size_le_four c) hb
    simp [takeBytes, if_pos this]

theorem utf8Len_mk (l : List Char) : utf8Len (String.mk l) = (l.map Char.utf8Size).sum := rfl

theorem utf8Len_truncBytes_le (b : Nat) (s : String) : utf8Len (truncBytes b s) ≤ b :=
  takeBytes_sum_le b s.data

theorem truncBytes_ne_empty {b : Nat} {s : String} (hs : s ≠ "") (hb : 4 ≤ b) :
    truncBytes b s ≠ "" := by
  intro h
  rw [truncBytes, string_eq_empty_iff] at h
  exact takeBytes_ne_nil (fun hd => hs (string_eq_empty_iff.mpr hd)) hb h

theorem utf8Len_append (a b : String) : utf8Len (a ++ b) = utf8Len a + utf8Len b := by
  simp [utf8Len, String.data_append]

theorem sum_map_ones {l : List Char} (h : ∀ c ∈ l, Char.utf8Size c = 1) :
    (l.map Char.utf8Size).sum = l.length := by
  induction l with
  | nil => rfl
  | cons c cs ih =>
    simp only [List.map_cons, List.sum_cons, List.length_cons]
    rw [h c (List.mem_cons_self _ _), ih (fun x hx => h x (List.mem_cons_of_mem _ hx))]
    omega

theorem utf8Len_sfxStr_le {k : Nat} (hk : k < 1000) : utf8Len (sfxStr k) ≤ 4 := by
  have hdig : ∀ c ∈ natChars (k + 1) k, Char.utf8Size c = 1 := by
    intro c hc
    obtain ⟨d, hd, rfl⟩ := mem_natChars _ _ c hc
    exact utf8Size_digitChar hd
  have hlen : (natChars (k + 1) k).length ≤ 3 :=
    natChars_length_le (k + 1) 3 k (by omega) (by norm_num; omega)
  have : utf8Len (sfxStr k) = 1 + (natChars (k + 1) k).length := by
    rw [sfxStr, utf8Len_mk, List.map_cons, List.sum_cons, sum_map_ones hdig]
    norm_num
    decide
  omega

theorem utf8Len_numberedName_le {base : String} {k : Nat} (hk : k < 1000) :
    utf8Len (numberedName base k) ≤ settings.MAX_BYTES_PER_COLUMN_NAME := by
  rw [numberedName, utf8Len_append]
  have h1 := utf8Len_truncBytes_le
    (settings.MAX_BYTES_PER_COLUMN_NAME - utf8Len (sfxStr k)) base
  have h2 := utf8Len_sfxStr_le hk
  show _ ≤ (120 : Nat)
  have : settings.MAX_BYTES_PER_COLUMN_NAME = 120 := rfl
  omega

theorem numberedName_ne_empty (base : String) (k : Nat) : numberedName base k ≠ "" := by
  intro h
  rw [string_eq_empty_iff, numberedName, String.data_append] at h
  have : (sfxStr k).data = ' ' :: natChars (k + 1) k := rfl
  rw [this] at h
  simp at h

theorem takeWhile_all_append {p : Char → Bool} :
    ∀ (l1 : List Char) (x : Char) (l2 : List Char),
      (∀ c ∈ l1, p c = true) → p x = false →
      List.takeWhile p (l1 ++ x :: l2) = l1 := by
  intro l1 x l2 h1 hx
  induction l1 with
  | nil => simp [List.takeWhile, hx]
  | cons c cs ih =>
    have hc : p c = true := h1 c (List.mem_cons_self _ _)
    have hrest := ih (fun y hy => h1 y (List.mem_cons_of_mem _ hy))
    rw [List.cons_append, List.takeWhile_cons, if_pos hc, hrest]

theorem natChars_no_space {f n : Nat} : ∀ c ∈ natChars f n, (c != ' ') = true := by
  intro c hc
  obtain ⟨d, hd, rfl⟩ := mem_natChars _ _ c hc
  simpa using digitChar_ne_space hd

theorem extract_after_space (a d : List Char) (hd : ∀ c ∈ d, (c != ' ') = true) :
    (((a ++ ' ' :: d).reverse.takeWhile (fun c => c != ' ')).reverse) = d := by
  have hrev : (a ++ ' ' :: d).reverse = d.reverse ++ ' ' :: a.reverse := by
    rw [List.reverse_append, List.reverse_cons, List.append_assoc]
    simp
  rw [hrev, takeWhile_all_append d.reverse ' ' a.reverse
    (fun c hc => hd c (List.mem_reverse.mp hc)) (by decide), List.reverse_reverse]

theorem numberedName_data (base : String) (k : Nat) :
    (numberedName base k).data =
      takeBytes (settings.MAX_BYTES_PER_COLUMN_NAME - utf8Len (sfxStr k)) base.data ++
        ' ' :: natChars (k + 1) k := by
  rw [numberedName, String.data_append]
  rfl

theorem numberedName_inj {base : String} {k1 k2 : Nat}
    (h : numberedName base k1 = numberedName base k2) : k1 = k2 := by
  have hdata := congrArg String.data h
  rw [numberedName_data, numberedName_data] at hdata
  have h1 := extract_after_space
    (takeBytes (settings.MAX_BYTES_PER_COLUMN_NAME - utf8Len (sfxStr k1)) base.data)
    (natChars (k1 + 1) k1) natChars_no_space
  have h2 := extract_after_space
    (takeBytes (settings.MAX_BYTES_PER_COLUMN_NAME - utf8Len (sfxStr k2)) base.data)
    (natChars (k2 + 1) k2) natChars_no_space
  have : natChars (k1 + 1) k1 = natChars (k2 + 1) k2 := by
    rw [← h1, ← h2, hdata]
  exact natStr_inj (congrArg String.mk this)

theorem exists_free_numbered (forbidden : List String) (base : String) :
    ∃ i, i < forbidden.length + 1 ∧ numberedName base (i + 2) ∉ forbidden := by
  by_contra hc
  push_neg at hc
  have hsub : ((List.range (forbidden.length + 1)).map (fun i => numberedName base (i + 2)))
      ⊆ forbidden := by
    intro x hx
    obtain ⟨i, hi, rfl⟩ := List.mem_map.mp hx
    exact hc i (List.mem_range.mp hi)
  have hnd : ((List.range (forbidden.length + 1)).map (fun i => numberedName base (i + 2))).Nodup := by
    refine List.Pairwise.map _ ?_ (List.nodup_range _)
    intro a b hab h
    exact hab (by have := numberedName_inj h; omega)
  have := (List.subperm_of_subset hnd hsub).length_le
  simp at this

theorem firstFreeK_spec (forbidden : List String) (base : String) :
    numberedName base (firstFreeK forbidden base) ∉ forbidden ∧
    2 ≤ firstFreeK forbidden base ∧
    firstFreeK forbidden base ≤ forbidden.length + 2 := by
  unfold firstFreeK
  cases hfind : (List.range (forbidden.length + 1)).find?
      (fun i => decide (numberedName base (i + 2) ∉ forbidden)) with
  | some i =>
    have hpred := List.find?_some hfind
    have hmem := List.mem_of_find?_eq_some hfind
    have hi : i < forbidden.length + 1 := List.mem_range.mp hmem
    show numberedName base (i + 2) ∉ forbidden ∧ 2 ≤ i + 2 ∧ i + 2 ≤ forbidden.length + 2
    exact ⟨of_decide_eq_true hpred, by omega, by omega⟩
  | none =>
    exfalso
    obtain ⟨i, hi, hfree⟩ := exists_free_numbered forbidden base
    have := List.find?_eq_none.mp hfind i (List.mem_range.mpr hi)
    simp only [decide_eq_true_eq] at this
    exact this hfree

theorem processOne_name_not_mem (s : String) (pos : Nat) (used reserved : List String) :
    (processOne s pos used reserved).name ∉ used := by
  by_cases h : truncBytes settings.MAX_BYTES_PER_COLUMN_NAME
      (if cleanColname s = "" then defaultName pos else cleanColname s) ∈ used
  · simp only [processOne, if_pos h]
    exact fun hmem => (firstFreeK_spec _ _).1 (List.mem_append_left _ hmem)
  · simp only [processOne, if_neg h]
    exact h

theorem defaultName_ne_empty (pos : Nat) : defaultName pos ≠ "" := by
  intro h
  rw [string_eq_empty_iff, defaultName, String.data_append, List.append_eq_nil] at h
  exact absurd h.1 (by decide)

theorem processOne_name_ne_empty (s : String) (pos : Nat) (used reserved : List String) :
    (processOne s pos used reserved).name ≠ "" := by
  by_cases h : truncBytes settings.MAX_BYTES_PER_COLUMN_NAME
      (if cleanColname s = "" then defaultName pos else cleanColname s) ∈ used
  · simp only [processOne, if_pos h]
    exact numberedName_ne_empty _ _
  · simp only [processOne, if_neg h]
    apply truncBytes_ne_empty _ (by decide)
    by_cases hcl : cleanColname s = ""
    · rw [if_pos hcl]; exact defaultName_ne_empty pos
    · rw [if_neg hcl]; exact hcl

theorem processOne_is_default (s : String) (pos : Nat) (used reserved : List String) :
    (processOne s pos used reserved).is_default = (cleanColname s == "") := by
  by_cases h : truncBytes settings.MAX_BYTES_PER_COLUMN_NAME
      (if cleanColname s = "" then defaultName pos else cleanColname s) ∈ used
  · simp [processOne, if_pos h]
  · simp [processOne, if_neg h]

theorem processOne_utf8Len_le (s : String) (pos : Nat) (used reserved : List String)
    (hsz : used.length + reserved.length ≤ 900) :
    utf8Len (processOne s pos used reserved).name ≤ settings.MAX_BYTES_PER_COLUMN_NAME := by
  by_cases h : truncBytes settings.MAX_BYTES_PER_COLUMN_NAME
      (if cleanColname s = "" then defaultName pos else cleanColname s) ∈ used
  · simp only [processOne, if_pos h]
    apply utf8Len_numberedName_le
    have := (firstFreeK_spec (used ++ reserved)
      (truncBytes settings.MAX_BYTES_PER_COLUMN_NAME
        (if cleanColname s = "" then defaultName pos else cleanColname s))).2.2
    rw [List.length_append] at this
    omega
  · simp only [processOne, if_neg h]
    exact utf8Len_truncBytes_le _ _

theorem reservedDefaults_length_le : ∀ (l : List String) (pos : Nat),
    (reservedDefaults l pos).length ≤ l.length := by
  intro l
  induction l with
  | nil => intro pos; simp [reservedDefaults]
  | cons s rest ih =>
    intro pos
    simp only [reservedDefaults, List.length_append, List.length_cons]
    have := ih (pos + 1)
    split <;> simp <;> omega

theorem processNames_length : ∀ (l : List String) (pos : Nat) (used : List String),
    (processNames l pos used).length = l.length := by
  intro l
  induction l with
  | nil => intro pos used; rfl
  | cons s rest ih =>
    intro pos used
    simp only [processNames, List.length_cons]
    rw [ih]

theorem processNames_not_mem_used : ∀ (l : List String) (pos : Nat) (used : List String),
    ∀ u ∈ processNames l pos used, u.name ∉ used := by
  intro l
  induction l with
  | nil => intro pos used u hu; simp [processNames] at hu
  | cons s rest ih =>
    intro pos used u hu
    simp only [processNames, List.mem_cons] at hu
    rcases hu with rfl | hu
    · exact processOne_name_not_mem s pos used _
    · intro hmem
      exact ih (pos + 1) _ u hu (List.mem_append_left _ hmem)

theorem processNames_names_nodup : ∀ (l : List String) (pos : Nat) (used : List String),
    ((processNames l pos used).map (fun u => u.name)).Nodup := by
  intro l
  induction l with
  | nil => intro pos used; simp [processNames]
  | cons s rest ih =>
    intro pos used
    simp only [processNames, List.map_cons, List.nodup_cons]
    refine ⟨?_, ih (pos + 1) _⟩
    intro hmem
    obtain ⟨u, hu, hname⟩ := List.mem_map.mp hmem
    have := processNames_not_mem_used rest (pos + 1) _ u hu
    exact this (List.mem_append_right _ (by simp [hname]))

theorem processNames_name_ne_empty : ∀ (l : List String) (pos : Nat) (used : List String),
    ∀ u ∈ processNames l pos used, u.name ≠ "" := by
  intro l
  induction l with
  | nil => intro pos used u hu; simp [processNames] at hu
  | cons s rest ih =>
    intro pos used u hu
    simp only [processNames, List.mem_cons] at hu
    rcases hu with rfl | hu
    · exact processOne_name_ne_empty s pos used _
    · exact ih (pos + 1) _ u hu

theorem processNames_utf8Len_le : ∀ (l : List String) (pos : Nat) (used : List String),
    used.length + l.length ≤ 900 →
    ∀ u ∈ processNames l pos used, utf8Len u.name ≤ settings.MAX_BYTES_PER_COLUMN_NAME := by
  intro l
  induction l with
  | nil => intro pos used _ u hu; simp [processNames] at hu
  | cons s rest ih =>
    intro pos used hsz u hu
    simp only [processNames, List.mem_cons] at hu
    rcases hu with rfl | hu
    · apply processOne_utf8Len_le
      have := reservedDefaults_length_le rest (pos + 1)
      simp only [List.length_cons] at hsz
      omega
    · refine ih (pos + 1) _ ?_ u hu
      have h1 : (used ++ [(processOne s pos used (reservedDefaults rest (pos + 1))).name]).length
          = used.length + 1 := by simp
      simp only [List.length_cons] at hsz
      omega

theorem processNames_getD_is_default :
    ∀ (l : List String) (pos : Nat) (used : List String) (i : Nat), i < l.length →
    ((processNames l pos used).getD i ⟨"", false, false, false, false⟩).is_default
      = (cleanColname (l.getD i "") == "") := by
  intro l
  induction l with
  | nil => intro pos used i hi; simp at hi
  | cons s rest ih =>
    intro pos used i hi
    cases i with
    | zero =>
      simp only [processNames, List.getD_cons_zero]
      exact processOne_is_default s pos used _
    | succ j =>
      simp only [processNames, List.getD_cons_succ]
      exact ih (pos + 1) _ j (by simpa using hi)

theorem foldl_agg_n_ascii : ∀ (l : List UCColname) (st : AggState),
    (l.foldl aggStep st).n_ascii = st.n_ascii + l.countP (fun u => u.is_ascii_cleaned) := by
  intro l
  induction l with
  | nil => intro st; simp
  | cons u rest ih =>
    intro st
    rw [List.foldl_cons, ih, List.countP_cons]
    by_cases hu : u.is_ascii_cleaned = true
    · simp only [aggStep, hu, if_true]
      omega
    · simp [aggStep, hu]

theorem foldl_agg_n_dflt : ∀ (l : List UCColname) (st : AggState),
    (l.foldl aggStep st).n_dflt = st.n_dflt + l.countP (fun u => u.is_default) := by
  intro l
  induction l with
  | nil => intro st; simp
  | cons u rest ih =>
    intro st
    rw [List.foldl_cons, ih, List.countP_cons]
    by_cases hu : u.is_default = true
    · simp only [aggStep, hu, if_true]
      omega
    · simp [aggStep, hu]

theorem foldl_agg_n_trunc : ∀ (l : List UCColname) (st : AggState),
    (l.foldl aggStep st).n_trunc = st.n_trunc + l.countP (fun u => u.is_truncated) := by
  intro l
  induction l with
  | nil => intro st; simp
  | cons u rest ih =>
    intro st
    rw [List.foldl_cons, ih, List.countP_cons]
    by_cases hu : u.is_truncated = true
    · simp only [aggStep, hu, if_true]
      omega
    · simp [aggStep, hu]

theorem foldl_agg_n_numbered : ∀ (l : List UCColname) (st : AggState),
    (l.foldl aggStep st).n_numbered = st.n_numbered + l.countP (fun u => u.is_numbered) := by
  intro l
  induction l with
  | nil => intro st; simp
  | cons u rest ih =>
    intro st
    rw [List.foldl_cons, ih, List.countP_cons]
    by_cases hu : u.is_numbered = true
    · simp only [aggStep, hu, if_true]
      omega
    · simp [aggStep, hu]

theorem foldl_agg_first_ascii : ∀ (l : List UCColname) (st : AggState),
    (l.foldl aggStep st).first_ascii =
      (if st.n_ascii = 0 then
        match l.find? (fun u => u.is_ascii_cleaned) with
        | some u => some u.name
        | none => st.first_ascii
      else st.first_ascii) := by
  intro l
  induction l with
  | nil => intro st; split <;> rfl
  | cons u rest ih =>
    intro st
    rw [List.foldl_cons, ih]
    by_cases hu : u.is_ascii_cleaned = true
    · rw [List.find?_cons_of_pos _ hu]
      by_cases hn : st.n_ascii = 0
      · simp [aggStep, hu, hn]
      · simp [aggStep, hu, hn]
    · rw [List.find?_cons_of_neg _ (by simp [hu])]
      simp [aggStep, hu]

theorem foldl_agg_first_dflt : ∀ (l : List UCColname) (st : AggState),
    (l.foldl aggStep st).first_dflt =
      (if st.n_dflt = 0 then
        match l.find? (fun u => u.is_default) with
        | some u => some u.name
        | none => st.first_dflt
      else st.first_dflt) := by
  intro l
  induction l with
  | nil => intro st; split <;> rfl
  | cons u rest ih =>
    intro st
    rw [List.foldl_cons, ih]
    by_cases hu : u.is_default = true
    · rw [List.find?_cons_of_pos _ hu]
      by_cases hn : st.n_dflt = 0
      · simp [aggStep, hu, hn]
      · simp [aggStep, hu, hn]
    · rw [List.find?_cons_of_neg _ (by simp [hu])]
      simp [aggStep, hu]

theorem foldl_agg_first_trunc : ∀ (l : List UCColname) (st : AggState),
    (l.foldl aggStep st).first_trunc =
      (if st.n_trunc = 0 then
        match l.find? (fun u => u.is_truncated) with
        | some u => some u.name
        | none => st.first_trunc
      else st.first_trunc) := by
  intro l
  induction l with
  | nil => intro st; split <;> rfl
  | cons u rest ih =>
    intro st
    rw [List.foldl_cons, ih]
    by_cases hu : u.is_truncated = true
    · rw [List.find?_cons_of_pos _ hu]
      by_cases hn : st.n_trunc = 0
      · simp [aggStep, hu, hn]
      · simp [aggStep, hu, hn]
    · rw [List.find?_cons_of_neg _ (by simp [hu])]
      simp [aggStep, hu]

theorem foldl_agg_first_numbered : ∀ (l : List UCColname) (st : AggState),
    (l.foldl aggStep st).first_numbered =
      (if st.n_numbered = 0 then
        match l.find? (fun u => u.is_numbered) with
        | some u => some u.name
        | none => st.first_numbered
      else st.first_numbered) := by
  intro l
  induction l with
  | nil => intro st; split <;> rfl
  | cons u rest ih =>
    intro st
    rw [List.foldl_cons, ih]
    by_cases hu : u.is_numbered = true
    · rw [List.find?_cons_of_pos _ hu]
      by_cases hn : st.n_numbered = 0
      · simp [aggStep, hu, hn]
      · simp [aggStep, hu, hn]
    · rw [List.find?_cons_of_neg _ (by simp [hu])]
      simp [aggStep, hu]

theorem find?_match_eq_map (p : UCColname → Bool) (l : List UCColname) :
    (match l.find? p with
      | some u => some u.name
      | none => (none : Option String)) =
      (l.find? p).map (fun u => u.name) := by
  cases l.find? p <;> rfl

theorem gen_names_length (fc pn : String) (vals : List String) :
    (gen_colnames_and_warn fc pn vals).names.length = vals.length + 1 := by
  simp [gen_colnames_and_warn, gen_unique_clean_colnames, processNames_length]

theorem gen_names_ne_nil (fc pn : String) (vals : List String) :
    (gen_colnames_and_warn fc pn vals).names ≠ [] := by
  intro h
  have := gen_names_length fc pn vals
  rw [h] at this
  simp at this

theorem truncIfNeeded_cols_map_name (t : Table) :
    (truncIfNeeded t).cols.map (fun c => c.name) = t.cols.map (fun c => c.name) := by
  unfold truncIfNeeded
  split
  · simp [truncateTable]
  · rfl

theorem truncIfNeeded_cols_ne {t : Table} (h : t.cols ≠ []) : (truncIfNeeded t).cols ≠ [] := by
  intro hc
  have := truncIfNeeded_cols_map_name t
  rw [hc] at this
  cases hcols : t.cols with
  | nil => exact h hcols
  | cons c rest => rw [hcols] at this; simp at this

theorem render_eq_of_ne (t : Table) (p : Params) (ic : InputColumns)
    (h : (truncIfNeeded t).cols ≠ []) :
    render t p ic =
      (if tooManyWarnings t ++
          hdrWarnings ic ((truncIfNeeded t).cols.headD ⟨"", []⟩).name ++
          (genFor p ((truncIfNeeded t).cols.headD ⟨"", []⟩)).warnings ++
          typeWarnings ic ((truncIfNeeded t).cols.headD ⟨"", []⟩).name
            (dropPivot (truncIfNeeded t).cols ((truncIfNeeded t).cols.headD ⟨"", []⟩).name) = []
        then RenderResult.bare (transposeTable (genFor p ((truncIfNeeded t).cols.headD ⟨"", []⟩)).names
          (coerceCols ic ((truncIfNeeded t).cols.headD ⟨"", []⟩).name
            (dropPivot (truncIfNeeded t).cols ((truncIfNeeded t).cols.headD ⟨"", []⟩).name)))
        else RenderResult.withWarnings
          (transposeTable (genFor p ((truncIfNeeded t).cols.headD ⟨"", []⟩)).names
            (coerceCols ic ((truncIfNeeded t).cols.headD ⟨"", []⟩).name
              (dropPivot (truncIfNeeded t).cols ((truncIfNeeded t).cols.headD ⟨"", []⟩).name)))
          (tooManyWarnings t ++
            hdrWarnings ic ((truncIfNeeded t).cols.headD ⟨"", []⟩).name ++
            (genFor p ((truncIfNeeded t).cols.headD ⟨"", []⟩)).warnings ++
            typeWarnings ic ((truncIfNeeded t).cols.headD ⟨"", []⟩).name
              (dropPivot (truncIfNeeded t).cols ((truncIfNeeded t).cols.headD ⟨"", []⟩).name)),
        if settings.MAX_COLUMNS_PER_TABLE < t.nRows then t
        else { truncIfNeeded t with
          cols := coerceCols ic ((truncIfNeeded t).cols.headD ⟨"", []⟩).name
            (dropPivot (truncIfNeeded t).cols ((truncIfNeeded t).cols.headD ⟨"", []⟩).name)
          index := some (genFor p ((truncIfNeeded t).cols.headD ⟨"", []⟩)).names.tail }) := by
  rw [render]
  rw [if_neg h]

theorem warningList_ite (tb : Table) (ws : List Warning) :
    (if ws = [] then RenderResult.bare tb else RenderResult.withWarnings tb ws).warningList
      = ws := by
  split
  · rename_i hws
    rw [hws]
    rfl
  · rfl

theorem tableOf_ite (tb : Table) (ws : List Warning) :
    (if ws = [] then RenderResult.bare tb else RenderResult.withWarnings tb ws).tableOf = tb := by
  split <;> rfl

theorem render_warningList (t : Table) (p : Params) (ic : InputColumns) (h : t.cols ≠ []) :
    (render t p ic).1.warningList =
      tooManyWarnings t ++
        hdrWarnings ic ((truncIfNeeded t).cols.headD ⟨"", []⟩).name ++
        (genFor p ((truncIfNeeded t).cols.headD ⟨"", []⟩)).warnings ++
        typeWarnings ic ((truncIfNeeded t).cols.headD ⟨"", []⟩).name
          (dropPivot (truncIfNeeded t).cols ((truncIfNeeded t).cols.headD ⟨"", []⟩).name) := by
  rw [render_eq_of_ne t p ic (truncIfNeeded_cols_ne h)]
  exact warningList_ite _ _

theorem render_tableOf (t : Table) (p : Params) (ic : InputColumns) (h : t.cols ≠ []) :
    (render t p ic).1.tableOf =
      transposeTable (genFor p ((truncIfNeeded t).cols.headD ⟨"", []⟩)).names
        (coerceCols ic ((truncIfNeeded t).cols.headD ⟨"", []⟩).name
          (dropPivot (truncIfNeeded t).cols ((truncIfNeeded t).cols.headD ⟨"", []⟩).name)) := by
  rw [render_eq_of_ne t p ic (truncIfNeeded_cols_ne h)]
  exact tableOf_ite _ _

theorem render_callerTable (t : Table) (p : Params) (ic : InputColumns) (h : t.cols ≠ []) :
    (render t p ic).2 =
      (if settings.MAX_COLUMNS_PER_TABLE < t.nRows then t
       else { truncIfNeeded t with
         cols := coerceCols ic ((truncIfNeeded t).cols.headD ⟨"", []⟩).name
           (dropPivot (truncIfNeeded t).cols ((truncIfNeeded t).cols.headD ⟨"", []⟩).name)
         index := some (genFor p ((truncIfNeeded t).cols.headD ⟨"", []⟩)).names.tail }) := by
  rw [render_eq_of_ne t p ic (truncIfNeeded_cols_ne h)]

theorem mem_ite_singleton {α : Type} {c : Prop} [Decidable c] {x w : α}
    (h : w ∈ (if c then [x] else [])) : w = x := by
  split at h
  · simpa using h
  · simp at h

theorem warningsFromFlags_classify (l : List UCColname) :
    ∀ w ∈ warningsFromFlags l,
      w.isTooMany = false ∧ w.isHeaders = false ∧ w.isDiffTypes = false := by
  intro w hw
  simp only [warningsFromFlags, List.mem_append] at hw
  rcases hw with (((h | h) | h) | h) <;>
    · have := mem_ite_singleton h
      subst this
      exact ⟨rfl, rfl, rfl⟩

theorem countP_gen_tooMany (l : List UCColname) :
    (warningsFromFlags l).countP Warning.isTooMany = 0 :=
  List.countP_eq_zero.mpr (fun w hw => by simp [(warningsFromFlags_classify l w hw).1])

theorem countP_gen_headers (l : List UCColname) :
    (warningsFromFlags l).countP Warning.isHeaders = 0 :=
  List.countP_eq_zero.mpr (fun w hw => by simp [(warningsFromFlags_classify l w hw).2.1])

theorem countP_gen_diffTypes (l : List UCColname) :
    (warningsFromFlags l).countP Warning.isDiffTypes = 0 :=
  List.countP_eq_zero.mpr (fun w hw => by simp [(warningsFromFlags_classify l w hw).2.2])

theorem countP_tooMany_self (t : Table) :
    (tooManyWarnings t).countP Warning.isTooMany =
      if settings.MAX_COLUMNS_PER_TABLE < t.nRows then 1 else 0 := by
  unfold tooManyWarnings
  split <;> simp [Warning.isTooMany]

theorem countP_tooMany_hdr (ic : InputColumns) (pn : String) :
    (hdrWarnings ic pn).countP Warning.isTooMany = 0 := by
  unfold hdrWarnings
  split <;> simp [Warning.isTooMany]

theorem countP_tooMany_type (ic : InputColumns) (pn : String) (cols : List TColumn) :
    (typeWarnings ic pn cols).countP Warning.isTooMany = 0 := by
  unfold typeWarnings
  split <;> simp [Warning.isTooMany]

theorem countP_headers_self (ic : InputColumns) (pn : String) :
    (hdrWarnings ic pn).countP Warning.isHeaders =
      if lookupType ic pn ≠ CType.text then 1 else 0 := by
  unfold hdrWarnings
  split <;> rename_i hc <;> simp [hc, Warning.isHeaders]

theorem countP_headers_tooMany (t : Table) :
    (tooManyWarnings t).countP Warning.isHeaders = 0 := by
  unfold tooManyWarnings
  split <;> simp [Warning.isHeaders]

theorem countP_headers_type (ic : InputColumns) (pn : String) (cols : List TColumn) :
    (typeWarnings ic pn cols).countP Warning.isHeaders = 0 := by
  unfold typeWarnings
  split <;> simp [Warning.isHeaders]

theorem countP_diffTypes_self (ic : InputColumns) (pn : String) (cols : List TColumn) :
    (typeWarnings ic pn cols).countP Warning.isDiffTypes =
      if 1 < (nonPivotTypes ic pn).length then 1 else 0 := by
  unfold typeWarnings
  split <;> rename_i hc <;> simp [hc, Warning.isDiffTypes]

theorem countP_diffTypes_tooMany (t : Table) :
    (tooManyWarnings t).countP Warning.isDiffTypes = 0 := by
  unfold tooManyWarnings
  split <;> simp [Warning.isDiffTypes]

theorem countP_diffTypes_hdr (ic : InputColumns) (pn : String) :
    (hdrWarnings ic pn).countP Warning.isDiffTypes = 0 := by
  unfold hdrWarnings
  split <;> simp [Warning.isDiffTypes]

theorem transposeTable_map_name (names : List String) (cols : List TColumn) (h : names ≠ []) :
    (transposeTable names cols).cols.map (fun c => c.name) = names := by
  cases names with
  | nil => exact absurd rfl h
  | cons n0 rest =>
    simp only [transposeTable, List.headD_cons, List.tail_cons, List.map_cons, List.map_map]
    show n0 :: List.map Prod.snd (List.enum rest) = n0 :: rest
    rw [List.enum_map_snd]

theorem transposeTable_cols_length (names : List String) (cols : List TColumn) (h : names ≠ []) :
    (transposeTable names cols).cols.length = names.length := by
  have := congrArg List.length (transposeTable_map_name names cols h)
  simpa using this

theorem transposeTable_nRows (names : List String) (cols : List TColumn) :
    (transposeTable names cols).nRows = cols.length := rfl

theorem transposeTable_head_cells (names : List String) (cols : List TColumn) :
    ((transposeTable names cols).cols.headD ⟨"", []⟩).cells =
      cols.map (fun c => Cell.text c.name) := rfl

theorem transposeTable_getD_succ (names : List String) (cols : List TColumn) (r : Nat)
    (hr : r < names.tail.length) :
    (transposeTable names cols).cols.getD (r + 1) ⟨"", []⟩ =
      ⟨names.tail.getD r "", cols.map (fun c => c.cells.getD r Cell.null)⟩ := by
  simp only [transposeTable, List.getD_cons_succ]
  rw [List.getD_eq_getElem _ _ (by rw [List.length_map, List.enum_length]; exact hr)]
  rw [List.getElem_map, List.getElem_enum]
  rw [List.getD_eq_getElem _ _ hr]

theorem dropPivot_eq_tail (c0 : TColumn) (rest : List TColumn)
    (hnd : ((c0 :: rest).map (fun c => c.name)).Nodup) :
    dropPivot (c0 :: rest) c0.name = rest := by
  simp only [List.map_cons, List.nodup_cons] at hnd
  unfold dropPivot
  rw [List.filter_cons_of_neg (by simp)]
  apply List.filter_eq_self.mpr
  intro c hc
  simp only [decide_eq_true_eq]
  intro heq
  exact hnd.1 (List.mem_map.mpr ⟨c, hc, heq⟩)

theorem truncIfNeeded_head (t : Table) (c0 : TColumn) (rest : List TColumn)
    (hc : t.cols = c0 :: rest) (hwf : Table.WF t) :
    (truncIfNeeded t).cols.headD ⟨"", []⟩ =
      ⟨c0.name, c0.cells.take (min t.nRows settings.MAX_COLUMNS_PER_TABLE)⟩ := by
  unfold truncIfNeeded
  split
  · rename_i h99
    simp only [truncateTable, hc, List.map_cons, List.headD_cons]
    simp only [settings] at h99 ⊢
    rw [Nat.min_eq_right (show (99 : Nat) ≤ t.nRows by omega)]
  · rename_i h99
    simp only [hc, List.headD_cons]
    have hlen : c0.cells.length = t.nRows := hwf c0 (by rw [hc]; exact List.mem_cons_self _ _)
    have hm : min t.nRows settings.MAX_COLUMNS_PER_TABLE = t.nRows := by
      simp only [settings] at h99 ⊢
      omega
    rw [hm, ← hlen, List.take_length]

theorem truncIfNeeded_dropped (t : Table) (c0 : TColumn) (rest : List TColumn)
    (hc : t.cols = c0 :: rest) (hwf : Table.WF t)
    (hnd : (t.cols.map (fun c => c.name)).Nodup) :
    dropPivot (truncIfNeeded t).cols ((truncIfNeeded t).cols.headD ⟨"", []⟩).name =
      rest.map (fun c =>
        ⟨c.name, c.cells.take (min t.nRows settings.MAX_COLUMNS_PER_TABLE)⟩) := by
  rw [truncIfNeeded_head t c0 rest hc hwf]
  unfold truncIfNeeded
  split
  · rename_i h99
    simp only [truncateTable, hc, List.map_cons]
    have hm : min t.nRows settings.MAX_COLUMNS_PER_TABLE = settings.MAX_COLUMNS_PER_TABLE := by
      simp only [settings] at h99 ⊢
      omega
    rw [hm]
    exact dropPivot_eq_tail _ _ (by
      rw [hc] at hnd
      simpa only [List.map_cons, List.map_map] using hnd)
  · rename_i h99
    simp only [hc]
    rw [show (⟨c0.name, c0.cells.take (min t.nRows settings.MAX_COLUMNS_PER_TABLE)⟩ :
        TColumn).name = c0.name from rfl]
    rw [dropPivot_eq_tail c0 rest (by rw [hc] at hnd; exact hnd)]
    apply Eq.symm
    apply List.map_congr_left ?_ |>.trans (List.map_id rest)
    intro c hcm
    have hlen : c.cells.length = t.nRows :=
      hwf c (by rw [hc]; exact List.mem_cons_of_mem _ hcm)
    have hm : min t.nRows settings.MAX_COLUMNS_PER_TABLE = t.nRows := by
      simp only [settings] at h99 ⊢
      omega
    rw [hm, ← hlen, List.take_length]
    rfl

theorem coerceCols_length (ic : InputColumns) (pn : String) (cols : List TColumn) :
    (coerceCols ic pn cols).length = cols.length := by
  unfold coerceCols
  split <;> simp

theorem coerceCols_getD (ic : InputColumns) (pn : String) (cols : List TColumn) (k : Nat)
    (hk : k < cols.length) :
    (coerceCols ic pn cols).getD k ⟨"", []⟩ =
      (if 1 < (nonPivotTypes ic pn).length ∧
          lookupType ic ((cols.getD k ⟨"", []⟩).name) ≠ CType.text
       then coerceCol (cols.getD k ⟨"", []⟩)
       else cols.getD k ⟨"", []⟩) := by
  rw [List.getD_eq_getElem _ _ hk]
  unfold coerceCols
  by_cases hmix : 1 < (nonPivotTypes ic pn).length
  · rw [if_pos hmix]
    rw [List.getD_eq_getElem _ _ (by simpa using hk), List.getElem_map]
    by_cases ht : lookupType ic (cols[k]).name ≠ CType.text
    · rw [if_pos ht, if_pos ⟨hmix, ht⟩]
    · rw [if_neg ht, if_neg (by tauto)]
  · rw [if_neg hmix, if_neg (by tauto)]
    exact List.getD_eq_getElem _ _ hk

theorem warningsFromFlags_eq (l : List UCColname) :
    warningsFromFlags l =
      (if 0 < l.countP (fun u => u.is_ascii_cleaned) then
        [Warning.removedSpecialChars (l.countP (fun u => u.is_ascii_cleaned))
          ((l.find? (fun u => u.is_ascii_cleaned)).map (fun u => u.name))]
       else []) ++
      (if 0 < l.countP (fun u => u.is_default) then
        [Warning.renamedEmpty (l.countP (fun u => u.is_default))
          ((l.find? (fun u => u.is_default)).map (fun u => u.name))]
       else []) ++
      (if 0 < l.countP (fun u => u.is_truncated) then
        [Warning.truncatedNames (l.countP (fun u => u.is_truncated))
          ((l.find? (fun u => u.is_truncated)).map (fun u => u.name))
          settings.MAX_BYTES_PER_COLUMN_NAME]
       else []) ++
      (if 0 < l.countP (fun u => u.is_numbered) then
        [Warning.renamedDuplicates (l.countP (fun u => u.is_numbered))
          ((l.find? (fun u => u.is_numbered)).map (fun u => u.name))]
       else []) := by
  simp only [warningsFromFlags]
  rw [foldl_agg_n_ascii, foldl_agg_first_ascii, foldl_agg_n_dflt, foldl_agg_first_dflt,
    foldl_agg_n_trunc, foldl_agg_first_trunc, foldl_agg_n_numbered, foldl_agg_first_numbered]
  simp only [initAgg, Nat.zero_add, if_pos rfl]
  rw [find?_match_eq_map, find?_match_eq_map, find?_match_eq_map, find?_match_eq_map]
  simp

/-- C2: for the candidate sequences `_gen_colnames_and_warn` is applied to
(the first-column name followed by the header values of the — already
row-capped — pivot column), the generated name sequence has the same length
as its input, contains no empty string, contains no duplicates, and every
name is at most `settings.MAX_BYTES_PER_COLUMN_NAME` UTF-8 bytes long. -/
theorem c2_sanitizer_invariants (first_colname pivotName : String) (vals : List String)
    (hlen : vals.length ≤ settings.MAX_COLUMNS_PER_TABLE) :
    (gen_colnames_and_warn first_colname pivotName vals).names.length = vals.length + 1 ∧
    (∀ nm ∈ (gen_colnames_and_warn first_colname pivotName vals).names,
      nm ≠ "" ∧ utf8Len nm ≤ settings.MAX_BYTES_PER_COLUMN_NAME) ∧
    (gen_colnames_and_warn first_colname pivotName vals).names.Nodup := by
  refine ⟨gen_names_length _ _ _, ?_, ?_⟩
  · intro nm hnm
    simp only [gen_colnames_and_warn, gen_unique_clean_colnames, List.mem_map] at hnm
    obtain ⟨u, hu, rfl⟩ := hnm
    refine ⟨processNames_name_ne_empty _ _ _ u hu, ?_⟩
    apply processNames_utf8Len_le _ _ _ ?_ u hu
    have hmax : settings.MAX_COLUMNS_PER_TABLE = 99 := rfl
    simp only [List.length_nil, List.length_cons]
    omega
  · exact processNames_names_nodup _ _ _

/-- Witness for C2: the invariants hold at the concrete call of the
spec's happy-path scenario. -/
theorem c2_sanitizer_invariants_witness :
    (["b", "c"] : List String).length ≤ settings.MAX_COLUMNS_PER_TABLE ∧
    ((gen_colnames_and_warn "" "A" ["b", "c"]).names.length = ["b", "c"].length + 1 ∧
     (∀ nm ∈ (gen_colnames_and_warn "" "A" ["b", "c"]).names,
       nm ≠ "" ∧ utf8Len nm ≤ settings.MAX_BYTES_PER_COLUMN_NAME) ∧
     (gen_colnames_and_warn "" "A" ["b", "c"]).names.Nodup) :=
  ⟨by decide, c2_sanitizer_invariants "" "A" ["b", "c"] (by decide)⟩

/-- C9: the aggregation loop of `_gen_colnames_and_warn` emits at most one
warning per flag category; a category's warning is present exactly when at
least one generated name carries that flag; it holds the count of affected
names and the first affected name as the example; and the warnings appear
in the fixed order ascii-cleaned, defaulted, truncated, numbered. -/
theorem c9_warning_aggregation (first_colname pivotName : String) (vals : List String) :
    (gen_colnames_and_warn first_colname pivotName vals).warnings =
      (let l := gen_unique_clean_colnames
        ((if first_colname = "" then pivotName else first_colname) :: vals)
      (if 0 < l.countP (fun u => u.is_ascii_cleaned) then
        [Warning.removedSpecialChars (l.countP (fun u => u.is_ascii_cleaned))
          ((l.find? (fun u => u.is_ascii_cleaned)).map (fun u => u.name))]
       else []) ++
      (if 0 < l.countP (fun u => u.is_default) then
        [Warning.renamedEmpty (l.countP (fun u => u.is_default))
          ((l.find? (fun u => u.is_default)).map (fun u => u.name))]
       else []) ++
      (if 0 < l.countP (fun u => u.is_truncated) then
        [Warning.truncatedNames (l.countP (fun u => u.is_truncated))
          ((l.find? (fun u => u.is_truncated)).map (fun u => u.name))
          settings.MAX_BYTES_PER_COLUMN_NAME]
       else []) ++
      (if 0 < l.countP (fun u => u.is_numbered) then
        [Warning.renamedDuplicates (l.countP (fun u => u.is_numbered))
          ((l.find? (fun u => u.is_numbered)).map (fun u => u.name))]
       else [])) :=
  warningsFromFlags_eq _

theorem truncIfNeeded_head_name (t : Table) (h : t.cols ≠ []) :
    ((truncIfNeeded t).cols.headD ⟨"", []⟩).name = (t.cols.headD ⟨"", []⟩).name := by
  unfold truncIfNeeded
  split
  · cases hc : t.cols with
    | nil => exact absurd hc h
    | cons c0 rest => simp [truncateTable, hc]
  · rfl

theorem genFor_warnings (p : Params) (pivot : TColumn) :
    (genFor p pivot).warnings = warningsFromFlags (gen_unique_clean_colnames
      ((if p.firstcolname = "" then pivot.name else p.firstcolname) :: headerVals pivot)) := rfl

theorem genFor_names_ne_nil (p : Params) (pivot : TColumn) : (genFor p pivot).names ≠ [] :=
  gen_names_ne_nil _ _ _

theorem genFor_names_length_of_wf (t : Table) (p : Params) (hwf : Table.WF t)
    (c0 : TColumn) (rest : List TColumn) (hc : t.cols = c0 :: rest) :
    (genFor p ((truncIfNeeded t).cols.headD ⟨"", []⟩)).names.length =
      min t.nRows settings.MAX_COLUMNS_PER_TABLE + 1 := by
  unfold genFor
  rw [gen_names_length]
  congr 1
  rw [truncIfNeeded_head t c0 rest hc hwf]
  have hlen : c0.cells.length = t.nRows := hwf c0 (by rw [hc]; exact List.mem_cons_self _ _)
  simp only [headerVals, List.length_map, List.length_take]
  omega

/-- C6: the header-coerced-to-text warning — with a quick-fix converting
exactly the pivot column — is emitted exactly when the pivot column's
declared type is not text; with a text pivot no such warning appears. -/
theorem c6_header_warning_iff (t : Table) (p : Params) (ic : InputColumns)
    (hne : t.cols ≠ []) :
    ((render t p ic).1.warningList.countP Warning.isHeaders =
      if lookupType ic ((t.cols.headD ⟨"", []⟩).name) ≠ CType.text then 1 else 0) ∧
    (lookupType ic ((t.cols.headD ⟨"", []⟩).name) ≠ CType.text →
      Warning.headersToText ((t.cols.headD ⟨"", []⟩).name)
          [⟨"prependModule", "converttotext", [(t.cols.headD ⟨"", []⟩).name]⟩]
        ∈ (render t p ic).1.warningList) := by
  constructor
  · rw [render_warningList t p ic hne, truncIfNeeded_head_name t hne]
    rw [List.countP_append, List.countP_append, List.countP_append]
    rw [countP_headers_tooMany, countP_headers_self, genFor_warnings, countP_gen_headers,
      countP_headers_type]
    omega
  · intro hnt
    rw [render_warningList t p ic hne, truncIfNeeded_head_name t hne]
    rw [hdrWarnings, if_pos hnt]
    simp [List.mem_append]

/-- Witness for C6: at the spec's mixed-type scenario the pivot column is
numeric, so the warning with its quick-fix is present. -/
theorem c6_header_warning_iff_witness :
    (⟨2, none, [⟨"A", [Cell.number 1, Cell.number 2]⟩, ⟨"B", [Cell.text "x", Cell.text "y"]⟩,
        ⟨"C", [Cell.number 3, Cell.number 4]⟩]⟩ : Table).cols ≠ [] ∧
    (((render ⟨2, none, [⟨"A", [Cell.number 1, Cell.number 2]⟩,
          ⟨"B", [Cell.text "x", Cell.text "y"]⟩, ⟨"C", [Cell.number 3, Cell.number 4]⟩]⟩ ⟨""⟩
        [⟨"A", CType.number⟩, ⟨"B", CType.text⟩, ⟨"C", CType.number⟩]).1.warningList.countP
        Warning.isHeaders =
      if lookupType [⟨"A", CType.number⟩, ⟨"B", CType.text⟩, ⟨"C", CType.number⟩]
          (((⟨2, none, [⟨"A", [Cell.number 1, Cell.number 2]⟩, ⟨"B", [Cell.text "x", Cell.text "y"]⟩,
            ⟨"C", [Cell.number 3, Cell.number 4]⟩]⟩ : Table).cols.headD ⟨"", []⟩).name)
          ≠ CType.text then 1 else 0) ∧
     (lookupType [⟨"A", CType.number⟩, ⟨"B", CType.text⟩, ⟨"C", CType.number⟩]
          (((⟨2, none, [⟨"A", [Cell.number 1, Cell.number 2]⟩, ⟨"B", [Cell.text "x", Cell.text "y"]⟩,
            ⟨"C", [Cell.number 3, Cell.number 4]⟩]⟩ : Table).cols.headD ⟨"", []⟩).name)
          ≠ CType.text →
      Warning.headersToText
          (((⟨2, none, [⟨"A", [Cell.number 1, Cell.number 2]⟩, ⟨"B", [Cell.text "x", Cell.text "y"]⟩,
            ⟨"C", [Cell.number 3, Cell.number 4]⟩]⟩ : Table).cols.headD ⟨"", []⟩).name)
          [⟨"prependModule", "converttotext",
            [((⟨2, none, [⟨"A", [Cell.number 1, Cell.number 2]⟩, ⟨"B", [Cell.text "x", Cell.text "y"]⟩,
              ⟨"C", [Cell.number 3, Cell.number 4]⟩]⟩ : Table).cols.headD ⟨"", []⟩).name]⟩]
        ∈ (render ⟨2, none, [⟨"A", [Cell.number 1, Cell.number 2]⟩,
            ⟨"B", [Cell.text "x", Cell.text "y"]⟩, ⟨"C", [Cell.number 3, Cell.number 4]⟩]⟩ ⟨""⟩
          [⟨"A", CType.number⟩, ⟨"B", CType.text⟩, ⟨"C", CType.number⟩]).1.warningList)) :=
  ⟨by decide,
    c6_header_warning_iff
      ⟨2, none, [⟨"A", [Cell.number 1, Cell.number 2]⟩, ⟨"B", [Cell.text "x", Cell.text "y"]⟩,
        ⟨"C", [Cell.number 3, Cell.number 4]⟩]⟩ ⟨""⟩
      [⟨"A", CType.number⟩, ⟨"B", CType.text⟩, ⟨"C", CType.number⟩] (by decide)⟩

/-- C5 counterexample: a table with 100 rows and no columns exceeds the row
cap, yet the returned result carries no rows-truncated warning — the
zero-column early return (line 139–141) discards it, so the claimed
"if and only if" fails as stated. -/
theorem c5_counterexample :
    settings.MAX_COLUMNS_PER_TABLE < (⟨100, none, []⟩ : Table).nRows ∧
    (render ⟨100, none, []⟩ ⟨""⟩ []).1.warningList.countP Warning.isTooMany = 0 := by
  decide

/-- C5 (amended): for a table with at least one column, exactly one
rows-truncated warning naming the limit is emitted iff the row count
exceeds `settings.MAX_COLUMNS_PER_TABLE`, and the output has one column
per kept row plus the first column; a zero-column table instead returns a
bare empty table with no warning. -/
theorem c5_truncation_amended (t : Table) (p : Params) (ic : InputColumns)
    (hne : t.cols ≠ []) (hwf : Table.WF t) :
    ((render t p ic).1.warningList.countP Warning.isTooMany =
      if settings.MAX_COLUMNS_PER_TABLE < t.nRows then 1 else 0) ∧
    (settings.MAX_COLUMNS_PER_TABLE < t.nRows →
      Warning.tooManyRows settings.MAX_COLUMNS_PER_TABLE ∈ (render t p ic).1.warningList) ∧
    (render t p ic).1.tableOf.cols.length =
      min t.nRows settings.MAX_COLUMNS_PER_TABLE + 1 := by
  obtain ⟨c0, rest, hc⟩ : ∃ c0 rest, t.cols = c0 :: rest := by
    cases hcols : t.cols with
    | nil => exact absurd hcols hne
    | cons a b => exact ⟨a, b, rfl⟩
  refine ⟨?_, ?_, ?_⟩
  · rw [render_warningList t p ic hne]
    rw [List.countP_append, List.countP_append, List.countP_append]
    rw [countP_tooMany_self, countP_tooMany_hdr, genFor_warnings, countP_gen_tooMany,
      countP_tooMany_type]
    omega
  · intro h99
    rw [render_warningList t p ic hne]
    rw [tooManyWarnings, if_pos h99]
    simp [List.mem_append]
  · rw [render_tableOf t p ic hne]
    rw [transposeTable_cols_length _ _ (genFor_names_ne_nil _ _)]
    exact genFor_names_length_of_wf t p hwf c0 rest hc

/-- Witness for C5 (amended) at a 100-row single-column table: the cap
fires and the warning is present. -/
theorem c5_truncation_amended_witness :
    (⟨100, none, [⟨"A", List.replicate 100 Cell.null⟩]⟩ : Table).cols ≠ [] ∧
    Table.WF ⟨100, none, [⟨"A", List.replicate 100 Cell.null⟩]⟩ ∧
    (((render ⟨100, none, [⟨"A", List.replicate 100 Cell.null⟩]⟩ ⟨""⟩
        [⟨"A", CType.text⟩]).1.warningList.countP Warning.isTooMany =
      if settings.MAX_COLUMNS_PER_TABLE <
          (⟨100, none, [⟨"A", List.replicate 100 Cell.null⟩]⟩ : Table).nRows then 1 else 0) ∧
     (settings.MAX_COLUMNS_PER_TABLE <
          (⟨100, none, [⟨"A", List.replicate 100 Cell.null⟩]⟩ : Table).nRows →
       Warning.tooManyRows settings.MAX_COLUMNS_PER_TABLE ∈
         (render ⟨100, none, [⟨"A", List.replicate 100 Cell.null⟩]⟩ ⟨""⟩
           [⟨"A", CType.text⟩]).1.warningList) ∧
     (render ⟨100, none, [⟨"A", List.replicate 100 Cell.null⟩]⟩ ⟨""⟩
         [⟨"A", CType.text⟩]).1.tableOf.cols.length =
       min (⟨100, none, [⟨"A", List.replicate 100 Cell.null⟩]⟩ : Table).nRows
         settings.MAX_COLUMNS_PER_TABLE + 1) :=
  ⟨by decide, by unfold Table.WF; decide,
    c5_truncation_amended ⟨100, none, [⟨"A", List.replicate 100 Cell.null⟩]⟩ ⟨""⟩
      [⟨"A", CType.text⟩] (by decide) (by unfold Table.WF; decide)⟩

theorem truncIfNeeded_cols_nil {t : Table} (h : t.cols = []) : (truncIfNeeded t).cols = [] := by
  unfold truncIfNeeded
  split
  · simp [truncateTable, h]
  · exact h

/-- C3 counterexample: on a 150-row zero-column table the row cap fires and
produces a truncation warning, yet `render` returns the bare empty table:
the zero-column early return discards every accumulated warning, so the
claim fails as stated. -/
theorem c3_counterexample :
    settings.MAX_COLUMNS_PER_TABLE < (⟨150, none, []⟩ : Table).nRows ∧
    tooManyWarnings ⟨150, none, []⟩ = [Warning.tooManyRows settings.MAX_COLUMNS_PER_TABLE] ∧
    (render ⟨150, none, []⟩ ⟨""⟩ []).1 = RenderResult.bare ⟨0, none, []⟩ ∧
    (render ⟨150, none, []⟩ ⟨""⟩ []).1.warningList = [] := by
  decide

/-- C3 (amended): for a table with at least one column, the result carries
exactly the ordered concatenation of the four warning sources and is a bare
table exactly when that list is empty; a zero-column table always returns a
bare empty table, discarding any truncation warning. -/
theorem c3_warning_propagation_amended (t : Table) (p : Params) (ic : InputColumns) :
    (t.cols = [] → (render t p ic).1 = RenderResult.bare emptyTable) ∧
    (t.cols ≠ [] →
      ((render t p ic).1.warningList =
        tooManyWarnings t ++
          hdrWarnings ic ((truncIfNeeded t).cols.headD ⟨"", []⟩).name ++
          (genFor p ((truncIfNeeded t).cols.headD ⟨"", []⟩)).warnings ++
          typeWarnings ic ((truncIfNeeded t).cols.headD ⟨"", []⟩).name
            (dropPivot (truncIfNeeded t).cols ((truncIfNeeded t).cols.headD ⟨"", []⟩).name)) ∧
      ((render t p ic).1 = RenderResult.bare ((render t p ic).1.tableOf) ↔
        (render t p ic).1.warningList = [])) := by
  constructor
  · intro hnil
    rw [render]
    rw [if_pos (truncIfNeeded_cols_nil hnil)]
  · intro hne
    refine ⟨render_warningList t p ic hne, ?_⟩
    rw [render_eq_of_ne t p ic (truncIfNeeded_cols_ne hne)]
    split
    · rename_i hws
      simp [RenderResult.tableOf, RenderResult.warningList]
    · rename_i hws
      simp only [RenderResult.tableOf, RenderResult.warningList]
      constructor
      · intro h
        exact absurd h (by simp)
      · intro h
        exact absurd h hws

/-- Witness for C3 (amended) at the spec's happy-path table, where the
result is bare and the accumulated warning list is empty. -/
theorem c3_warning_propagation_amended_witness :
    ((render ⟨2, none, [⟨"A", [Cell.text "b", Cell.text "c"]⟩, ⟨"B", [Cell.text "c", Cell.text "d"]⟩,
        ⟨"C", [Cell.text "d", Cell.text "e"]⟩]⟩ ⟨""⟩
      [⟨"A", CType.text⟩, ⟨"B", CType.text⟩, ⟨"C", CType.text⟩]).1.warningList =
      tooManyWarnings ⟨2, none, [⟨"A", [Cell.text "b", Cell.text "c"]⟩,
          ⟨"B", [Cell.text "c", Cell.text "d"]⟩, ⟨"C", [Cell.text "d", Cell.text "e"]⟩]⟩ ++
        hdrWarnings [⟨"A", CType.text⟩, ⟨"B", CType.text⟩, ⟨"C", CType.text⟩]
          ((truncIfNeeded ⟨2, none, [⟨"A", [Cell.text "b", Cell.text "c"]⟩,
            ⟨"B", [Cell.text "c", Cell.text "d"]⟩,
            ⟨"C", [Cell.text "d", Cell.text "e"]⟩]⟩).cols.headD ⟨"", []⟩).name ++
        (genFor ⟨""⟩ ((truncIfNeeded ⟨2, none, [⟨"A", [Cell.text "b", Cell.text "c"]⟩,
            ⟨"B", [Cell.text "c", Cell.text "d"]⟩,
            ⟨"C", [Cell.text "d", Cell.text "e"]⟩]⟩).cols.headD ⟨"", []⟩)).warnings ++
        typeWarnings [⟨"A", CType.text⟩, ⟨"B", CType.text⟩, ⟨"C", CType.text⟩]
          ((truncIfNeeded ⟨2, none, [⟨"A", [Cell.text "b", Cell.text "c"]⟩,
            ⟨"B", [Cell.text "c", Cell.text "d"]⟩,
            ⟨"C", [Cell.text "d", Cell.text "e"]⟩]⟩).cols.headD ⟨"", []⟩).name
          (dropPivot (truncIfNeeded ⟨2, none, [⟨"A", [Cell.text "b", Cell.text "c"]⟩,
            ⟨"B", [Cell.text "c", Cell.text "d"]⟩,
            ⟨"C", [Cell.text "d", Cell.text "e"]⟩]⟩).cols
            ((truncIfNeeded ⟨2, none, [⟨"A", [Cell.text "b", Cell.text "c"]⟩,
              ⟨"B", [Cell.text "c", Cell.text "d"]⟩,
              ⟨"C", [Cell.text "d", Cell.text "e"]⟩]⟩).cols.headD ⟨"", []⟩).name)) ∧
    ((render ⟨2, none, [⟨"A", [Cell.text "b", Cell.text "c"]⟩, ⟨"B", [Cell.text "c", Cell.text "d"]⟩,
        ⟨"C", [Cell.text "d", Cell.text "e"]⟩]⟩ ⟨""⟩
      [⟨"A", CType.text⟩, ⟨"B", CType.text⟩, ⟨"C", CType.text⟩]).1 =
        RenderResult.bare ((render ⟨2, none, [⟨"A", [Cell.text "b", Cell.text "c"]⟩,
          ⟨"B", [Cell.text "c", Cell.text "d"]⟩, ⟨"C", [Cell.text "d", Cell.text "e"]⟩]⟩ ⟨""⟩
          [⟨"A", CType.text⟩, ⟨"B", CType.text⟩, ⟨"C", CType.text⟩]).1.tableOf) ↔
      (render ⟨2, none, [⟨"A", [Cell.text "b", Cell.text "c"]⟩, ⟨"B", [Cell.text "c", Cell.text "d"]⟩,
        ⟨"C", [Cell.text "d", Cell.text "e"]⟩]⟩ ⟨""⟩
        [⟨"A", CType.text⟩, ⟨"B", CType.text⟩, ⟨"C", CType.text⟩]).1.warningList = []) :=
  (c3_warning_propagation_amended ⟨2, none, [⟨"A", [Cell.text "b", Cell.text "c"]⟩,
      ⟨"B", [Cell.text "c", Cell.text "d"]⟩, ⟨"C", [Cell.text "d", Cell.text "e"]⟩]⟩ ⟨""⟩
    [⟨"A", CType.text⟩, ⟨"B", CType.text⟩, ⟨"C", CType.text⟩]).2 (by decide)

theorem truncIfNeeded_id {t : Table} (h : ¬ settings.MAX_COLUMNS_PER_TABLE < t.nRows) :
    truncIfNeeded t = t := by
  unfold truncIfNeeded
  rw [if_neg h]

/-- C4 counterexample: after rendering a one-row one-column table the
caller's table object has lost its pivot column (the in-place
`table.drop(column, axis=1, inplace=True)` of line 145), so `render` does
mutate the caller's table observably. -/
theorem c4_counterexample :
    (render ⟨1, none, [⟨"A", [Cell.text "x"]⟩]⟩ ⟨""⟩ [⟨"A", CType.text⟩]).2 ≠
      (⟨1, none, [⟨"A", [Cell.text "x"]⟩]⟩ : Table) ∧
    (render ⟨1, none, [⟨"A", [Cell.text "x"]⟩]⟩ ⟨""⟩ [⟨"A", CType.text⟩]).2.cols = [] := by
  decide

/-- C4 (amended): `render` mutates the caller's table in place whenever the
row cap did not rebind the local variable to a truncated copy: for a table
with at most `MAX_COLUMNS_PER_TABLE` rows and at least one (uniquely
named) column the caller's table loses its pivot column and is no longer
equal to the original; when the row count exceeds the cap, the caller's
table is left untouched. -/
theorem c4_mutation_amended (t : Table) (p : Params) (ic : InputColumns)
    (hne : t.cols ≠ []) (hnd : (t.cols.map (fun c => c.name)).Nodup) :
    (settings.MAX_COLUMNS_PER_TABLE < t.nRows → (render t p ic).2 = t) ∧
    (t.nRows ≤ settings.MAX_COLUMNS_PER_TABLE →
      (render t p ic).2.cols.length + 1 = t.cols.length ∧ (render t p ic).2 ≠ t) := by
  obtain ⟨c0, rest, hc⟩ : ∃ c0 rest, t.cols = c0 :: rest := by
    cases hcols : t.cols with
    | nil => exact absurd hcols hne
    | cons a b => exact ⟨a, b, rfl⟩
  constructor
  · intro h99
    rw [render_callerTable t p ic hne, if_pos h99]
  · intro hle
    have h99 : ¬ settings.MAX_COLUMNS_PER_TABLE < t.nRows := by omega
    have hlen : (render t p ic).2.cols.length + 1 = t.cols.length := by
      rw [render_callerTable t p ic hne, if_neg h99]
      simp only []
      rw [coerceCols_length, truncIfNeeded_id h99, hc, List.headD_cons,
        dropPivot_eq_tail c0 rest (by rw [← hc]; exact hnd)]
      simp
    refine ⟨hlen, ?_⟩
    intro heq
    rw [heq] at hlen
    omega

/-- Witness for C4 (amended): at a concrete two-column table the caller's
table has exactly one column left afterwards and differs from the
original. -/
theorem c4_mutation_amended_witness :
    (settings.MAX_COLUMNS_PER_TABLE <
        (⟨1, none, [⟨"A", [Cell.text "x"]⟩, ⟨"B", [Cell.text "y"]⟩]⟩ : Table).nRows →
      (render ⟨1, none, [⟨"A", [Cell.text "x"]⟩, ⟨"B", [Cell.text "y"]⟩]⟩ ⟨""⟩
        [⟨"A", CType.text⟩, ⟨"B", CType.text⟩]).2 =
        ⟨1, none, [⟨"A", [Cell.text "x"]⟩, ⟨"B", [Cell.text "y"]⟩]⟩) ∧
    ((⟨1, none, [⟨"A", [Cell.text "x"]⟩, ⟨"B", [Cell.text "y"]⟩]⟩ : Table).nRows ≤
        settings.MAX_COLUMNS_PER_TABLE →
      (render ⟨1, none, [⟨"A", [Cell.text "x"]⟩, ⟨"B", [Cell.text "y"]⟩]⟩ ⟨""⟩
          [⟨"A", CType.text⟩, ⟨"B", CType.text⟩]).2.cols.length + 1 =
        (⟨1, none, [⟨"A", [Cell.text "x"]⟩, ⟨"B", [Cell.text "y"]⟩]⟩ : Table).cols.length ∧
      (render ⟨1, none, [⟨"A", [Cell.text "x"]⟩, ⟨"B", [Cell.text "y"]⟩]⟩ ⟨""⟩
          [⟨"A", CType.text⟩, ⟨"B", CType.text⟩]).2 ≠
        ⟨1, none, [⟨"A", [Cell.text "x"]⟩, ⟨"B", [Cell.text "y"]⟩]⟩) :=
  c4_mutation_amended ⟨1, none, [⟨"A", [Cell.text "x"]⟩, ⟨"B", [Cell.text "y"]⟩]⟩ ⟨""⟩
    [⟨"A", CType.text⟩, ⟨"B", CType.text⟩] (by decide) (by decide)

/-- C8 counterexample: a whitespace-only override `" "` is empty after
trimming, so the claim says the pivot's original name `"A"` is used; the
source's Python-truthiness test (`first_colname or first_column.name`,
line 51) instead feeds the untrimmed `" "` through sanitization, and the
first output column is named `" "`, not `"A"`. -/
theorem c8_counterexample :
    (" ").data.all Char.isWhitespace = true ∧
    ((render ⟨1, none, [⟨"A", [Cell.text "x"]⟩]⟩ ⟨" "⟩
        [⟨"A", CType.text⟩]).1.tableOf.cols.headD ⟨"", []⟩).name = " " ∧
    (" " : String) ≠ "A" := by
  decide

/-- C8 (amended): the first output column is named by the sanitized form of
position 0 of the unified sanitization pass, and position 0 holds the
user-supplied override whenever it is a non-empty string (no whitespace
trimming; Python truthiness), the pivot column's original name otherwise. -/
theorem c8_first_colname_amended (t : Table) (p : Params) (ic : InputColumns)
    (hne : t.cols ≠ []) :
    ((render t p ic).1.tableOf.cols.headD ⟨"", []⟩).name =
      ((gen_unique_clean_colnames
        ((if p.firstcolname = "" then (t.cols.headD ⟨"", []⟩).name else p.firstcolname) ::
          headerVals ((truncIfNeeded t).cols.headD ⟨"", []⟩))).headD
        ⟨"", false, false, false, false⟩).name := by
  rw [render_tableOf t p ic hne, ← truncIfNeeded_head_name t hne]
  rfl

/-- Witness for C8 (amended) with a non-empty override. -/
theorem c8_first_colname_amended_witness :
    ((render ⟨2, none, [⟨"A", [Cell.text "b", Cell.text "c"]⟩, ⟨"B", [Cell.text "c", Cell.text "d"]⟩]⟩
        ⟨"Fish"⟩ [⟨"A", CType.text⟩, ⟨"B", CType.text⟩]).1.tableOf.cols.headD ⟨"", []⟩).name =
      ((gen_unique_clean_colnames
        ((if ("Fish" : String) = "" then
            ((⟨2, none, [⟨"A", [Cell.text "b", Cell.text "c"]⟩,
              ⟨"B", [Cell.text "c", Cell.text "d"]⟩]⟩ : Table).cols.headD ⟨"", []⟩).name
          else "Fish") ::
          headerVals ((truncIfNeeded ⟨2, none, [⟨"A", [Cell.text "b", Cell.text "c"]⟩,
            ⟨"B", [Cell.text "c", Cell.text "d"]⟩]⟩).cols.headD ⟨"", []⟩))).headD
        ⟨"", false, false, false, false⟩).name :=
  c8_first_colname_amended ⟨2, none, [⟨"A", [Cell.text "b", Cell.text "c"]⟩,
    ⟨"B", [Cell.text "c", Cell.text "d"]⟩]⟩ ⟨"Fish"⟩ [⟨"A", CType.text⟩, ⟨"B", CType.text⟩]
    (by decide)

theorem coerceCols_getElem (ic : InputColumns) (pn : String) (cols : List TColumn) (k : Nat)
    (hk : k < (coerceCols ic pn cols).length) :
    (coerceCols ic pn cols)[k] =
      (if 1 < (nonPivotTypes ic pn).length ∧
          lookupType ic ((cols.getD k ⟨"", []⟩).name) ≠ CType.text
       then coerceCol (cols.getD k ⟨"", []⟩)
       else cols.getD k ⟨"", []⟩) := by
  have hk' : k < cols.length := by rw [← coerceCols_length ic pn cols]; exact hk
  rw [← List.getD_eq_getElem (coerceCols ic pn cols) ⟨"", []⟩ hk]
  exact coerceCols_getD ic pn cols k hk'

theorem map_take_getD (rest : List TColumn) (m k : Nat) (hk : k < rest.length) :
    (rest.map (fun c => (⟨c.name, c.cells.take m⟩ : TColumn))).getD k ⟨"", []⟩ =
      ⟨(rest.getD k ⟨"", []⟩).name, (rest.getD k ⟨"", []⟩).cells.take m⟩ := by
  rw [List.getD_eq_getElem _ _ (by simpa using hk), List.getElem_map,
    List.getD_eq_getElem _ _ hk]

theorem coerceCol_cells_getD (c : TColumn) (r : Nat) (hr : r < c.cells.length) :
    (coerceCol c).cells.getD r Cell.null = coerceCell (c.cells.getD r Cell.null) := by
  simp only [coerceCol]
  rw [List.getD_eq_getElem _ _ (by simpa using hr), List.getElem_map,
    List.getD_eq_getElem _ _ hr]

theorem take_getD (l : List Cell) (m r : Nat) (hr : r < m) (hrl : r < l.length) :
    (l.take m).getD r Cell.null = l.getD r Cell.null := by
  rw [List.getD_eq_getElem _ _ (by rw [List.length_take]; omega), List.getElem_take,
    List.getD_eq_getElem _ _ hrl]

theorem render_cell_eq (t : Table) (p : Params) (ic : InputColumns)
    (hwf : Table.WF t) (c0 : TColumn) (rest : List TColumn) (hc : t.cols = c0 :: rest)
    (hnd : (t.cols.map (fun c => c.name)).Nodup)
    (r k : Nat) (hr : r < min t.nRows settings.MAX_COLUMNS_PER_TABLE) (hk : k < rest.length) :
    ((render t p ic).1.tableOf.cols.getD (r + 1) ⟨"", []⟩).cells.getD k Cell.null =
      (if 1 < (nonPivotTypes ic c0.name).length ∧
          lookupType ic ((rest.getD k ⟨"", []⟩).name) ≠ CType.text
       then coerceCell ((rest.getD k ⟨"", []⟩).cells.getD r Cell.null)
       else (rest.getD k ⟨"", []⟩).cells.getD r Cell.null) := by
  have hne : t.cols ≠ [] := by rw [hc]; simp
  have hpn : ((truncIfNeeded t).cols.headD ⟨"", []⟩).name = c0.name := by
    rw [truncIfNeeded_head t c0 rest hc hwf]
  have hkcells : (rest.getD k ⟨"", []⟩).cells.length = t.nRows := by
    apply hwf
    rw [hc]
    apply List.mem_cons_of_mem
    rw [List.getD_eq_getElem _ _ hk]
    exact List.getElem_mem _
  have hnames : (genFor p ((truncIfNeeded t).cols.headD ⟨"", []⟩)).names.length =
      min t.nRows settings.MAX_COLUMNS_PER_TABLE + 1 :=
    genFor_names_length_of_wf t p hwf c0 rest hc
  rw [render_tableOf t p ic hne]
  rw [truncIfNeeded_dropped t c0 rest hc hwf hnd, hpn]
  rw [transposeTable_getD_succ _ _ r (by
    rw [List.length_tail, hnames]
    omega)]
  simp only []
  have hlenC : (coerceCols ic c0.name (rest.map (fun c =>
      ⟨c.name, c.cells.take (min t.nRows settings.MAX_COLUMNS_PER_TABLE)⟩))).length =
      rest.length := by
    rw [coerceCols_length, List.length_map]
  rw [List.getD_eq_getElem _ _ (by rw [List.length_map, hlenC]; exact hk)]
  rw [List.getElem_map]
  rw [coerceCols_getElem ic c0.name _ k (by rw [hlenC]; exact hk)]
  rw [map_take_getD rest _ k hk]
  rw [apply_ite (fun c : TColumn => c.cells.getD r Cell.null)]
  by_cases hcond : 1 < (nonPivotTypes ic c0.name).length ∧
      lookupType ic ((rest.getD k ⟨"", []⟩).name) ≠ CType.text
  · rw [if_pos hcond, if_pos hcond]
    rw [coerceCol_cells_getD _ r (by
      simp only [List.length_take]
      omega)]
    rw [take_getD _ _ _ hr (by omega)]
  · rw [if_neg hcond, if_neg hcond]
    exact take_getD _ _ _ hr (by omega)

theorem toConvert_map_take (ic : InputColumns) (rest : List TColumn) (m : Nat) :
    toConvert ic (rest.map (fun c => ⟨c.name, c.cells.take m⟩)) = toConvert ic rest := by
  unfold toConvert
  induction rest with
  | nil => rfl
  | cons c cs ih =>
    simp only [List.map_cons, List.filter_cons]
    have hproj : (⟨c.name, c.cells.take m⟩ : TColumn).name = c.name := rfl
    rw [hproj]
    by_cases hb : lookupType ic c.name = CType.text
    · rw [if_neg (by simp [hb]), if_neg (by simp [hb])]
      exact ih
    · rw [if_pos (by simp [hb]), if_pos (by simp [hb])]
      simp only [List.map_cons]
      rw [hproj]
      exact congrArg (fun l => c.name :: l) ih

/-- C7: the cross-column coercion warning — naming all affected original
column names, with a quick-fix converting them — is emitted exactly when
the declared types of the non-pivot input columns contain more than one
distinct type; in that case every non-text non-pivot column is coerced to
text (each of its kept cells becomes the coerced value, with every present
value becoming its text representation), and cells that were missing stay
missing in the output. -/
theorem c7_type_unification_iff (t : Table) (p : Params) (ic : InputColumns)
    (hne : t.cols ≠ []) (hwf : Table.WF t)
    (hnd : (t.cols.map (fun c => c.name)).Nodup) :
    ((render t p ic).1.warningList.countP Warning.isDiffTypes =
      if 1 < (nonPivotTypes ic ((t.cols.headD ⟨"", []⟩).name)).length then 1 else 0) ∧
    (1 < (nonPivotTypes ic ((t.cols.headD ⟨"", []⟩).name)).length →
      Warning.differentTypes (toConvert ic t.cols.tail).length (toConvert ic t.cols.tail)
          [⟨"prependModule", "converttotext", toConvert ic t.cols.tail⟩]
        ∈ (render t p ic).1.warningList) ∧
    (∀ r k, r < min t.nRows settings.MAX_COLUMNS_PER_TABLE → k < t.cols.tail.length →
      1 < (nonPivotTypes ic ((t.cols.headD ⟨"", []⟩).name)).length →
      lookupType ic ((t.cols.tail.getD k ⟨"", []⟩).name) ≠ CType.text →
      ((render t p ic).1.tableOf.cols.getD (r + 1) ⟨"", []⟩).cells.getD k Cell.null =
        coerceCell ((t.cols.tail.getD k ⟨"", []⟩).cells.getD r Cell.null) ∧
      ((t.cols.tail.getD k ⟨"", []⟩).cells.getD r Cell.null ≠ Cell.null →
        ((render t p ic).1.tableOf.cols.getD (r + 1) ⟨"", []⟩).cells.getD k Cell.null =
          Cell.text (cellToStr ((t.cols.tail.getD k ⟨"", []⟩).cells.getD r Cell.null)))) ∧
    (∀ r k, r < min t.nRows settings.MAX_COLUMNS_PER_TABLE → k < t.cols.tail.length →
      (t.cols.tail.getD k ⟨"", []⟩).cells.getD r Cell.null = Cell.null →
      ((render t p ic).1.tableOf.cols.getD (r + 1) ⟨"", []⟩).cells.getD k Cell.null =
        Cell.null) := by
  obtain ⟨c0, rest, hc⟩ : ∃ c0 rest, t.cols = c0 :: rest := by
    cases hcols : t.cols with
    | nil => exact absurd hcols hne
    | cons a b => exact ⟨a, b, rfl⟩
  refine ⟨?_, ?_, ?_, ?_⟩
  · rw [render_warningList t p ic hne, truncIfNeeded_head_name t hne]
    rw [List.countP_append, List.countP_append, List.countP_append]
    rw [countP_diffTypes_tooMany, countP_diffTypes_hdr, genFor_warnings, countP_gen_diffTypes,
      countP_diffTypes_self]
    omega
  · intro hmix
    rw [render_warningList t p ic hne]
    rw [truncIfNeeded_dropped t c0 rest hc hwf hnd]
    rw [truncIfNeeded_head_name t hne]
    rw [typeWarnings, if_pos hmix, toConvert_map_take]
    rw [hc, List.tail_cons]
    simp [List.mem_append]
  · intro r k hr hk hmix htype
    rw [hc, List.tail_cons] at hk htype ⊢
    rw [hc, List.headD_cons] at hmix
    have hcell := render_cell_eq t p ic hwf c0 rest hc hnd r k hr hk
    rw [if_pos ⟨hmix, htype⟩] at hcell
    refine ⟨hcell, ?_⟩
    intro hnn
    rw [hcell]
    cases hval : (rest.getD k ⟨"", []⟩).cells.getD r Cell.null with
    | null => exact absurd hval hnn
    | text s => rfl
    | number n => rfl
    | timestamp x => rfl
  · intro r k hr hk hnull
    rw [hc, List.tail_cons] at hk hnull
    rw [render_cell_eq t p ic hwf c0 rest hc hnd r k hr hk, hnull]
    split <;> rfl

/-- Witness for C7 at the spec's mixed-type scenario (number and text
non-pivot columns): the warning count is as claimed, and the numeric
column `C`'s first cell is coerced to its text representation in the
output. -/
theorem c7_type_unification_iff_witness :
    ((render ⟨2, none, [⟨"A", [Cell.number 1, Cell.number 2]⟩, ⟨"B", [Cell.text "x", Cell.text "y"]⟩,
        ⟨"C", [Cell.number 3, Cell.number 4]⟩]⟩ ⟨""⟩
      [⟨"A", CType.number⟩, ⟨"B", CType.text⟩, ⟨"C", CType.number⟩]).1.warningList.countP
        Warning.isDiffTypes =
      if 1 < (nonPivotTypes [⟨"A", CType.number⟩, ⟨"B", CType.text⟩, ⟨"C", CType.number⟩]
          (((⟨2, none, [⟨"A", [Cell.number 1, Cell.number 2]⟩, ⟨"B", [Cell.text "x", Cell.text "y"]⟩,
            ⟨"C", [Cell.number 3, Cell.number 4]⟩]⟩ : Table).cols.headD ⟨"", []⟩).name)).length
      then 1 else 0) ∧
    (((render ⟨2, none, [⟨"A", [Cell.number 1, Cell.number 2]⟩, ⟨"B", [Cell.text "x", Cell.text "y"]⟩,
        ⟨"C", [Cell.number 3, Cell.number 4]⟩]⟩ ⟨""⟩
      [⟨"A", CType.number⟩, ⟨"B", CType.text⟩, ⟨"C", CType.number⟩]).1.tableOf.cols.getD 1
        ⟨"", []⟩).cells.getD 1 Cell.null =
      coerceCell (((⟨2, none, [⟨"A", [Cell.number 1, Cell.number 2]⟩,
        ⟨"B", [Cell.text "x", Cell.text "y"]⟩, ⟨"C", [Cell.number 3, Cell.number 4]⟩]⟩ :
          Table).cols.tail.getD 1 ⟨"", []⟩).cells.getD 0 Cell.null)) ∧
    (((⟨2, none, [⟨"A", [Cell.number 1, Cell.number 2]⟩, ⟨"B", [Cell.text "x", Cell.text "y"]⟩,
        ⟨"C", [Cell.number 3, Cell.number 4]⟩]⟩ : Table).cols.tail.getD 1
        ⟨"", []⟩).cells.getD 0 Cell.null ≠ Cell.null →
      ((render ⟨2, none, [⟨"A", [Cell.number 1, Cell.number 2]⟩, ⟨"B", [Cell.text "x", Cell.text "y"]⟩,
          ⟨"C", [Cell.number 3, Cell.number 4]⟩]⟩ ⟨""⟩
        [⟨"A", CType.number⟩, ⟨"B", CType.text⟩, ⟨"C", CType.number⟩]).1.tableOf.cols.getD 1
          ⟨"", []⟩).cells.getD 1 Cell.null =
        Cell.text (cellToStr (((⟨2, none, [⟨"A", [Cell.number 1, Cell.number 2]⟩,
          ⟨"B", [Cell.text "x", Cell.text "y"]⟩, ⟨"C", [Cell.number 3, Cell.number 4]⟩]⟩ :
            Table).cols.tail.getD 1 ⟨"", []⟩).cells.getD 0 Cell.null))) :=
  ⟨(c7_type_unification_iff ⟨2, none, [⟨"A", [Cell.number 1, Cell.number 2]⟩,
      ⟨"B", [Cell.text "x", Cell.text "y"]⟩, ⟨"C", [Cell.number 3, Cell.number 4]⟩]⟩ ⟨""⟩
    [⟨"A", CType.number⟩, ⟨"B", CType.text⟩, ⟨"C", CType.number⟩] (by decide)
    (by unfold Table.WF; decide) (by decide)).1,
   ((c7_type_unification_iff ⟨2, none, [⟨"A", [Cell.number 1, Cell.number 2]⟩,
      ⟨"B", [Cell.text "x", Cell.text "y"]⟩, ⟨"C", [Cell.number 3, Cell.number 4]⟩]⟩ ⟨""⟩
    [⟨"A", CType.number⟩, ⟨"B", CType.text⟩, ⟨"C", CType.number⟩] (by decide)
    (by unfold Table.WF; decide) (by decide)).2.2.1 0 1 (by decide) (by decide) (by decide)
    (by decide)).1,
   ((c7_type_unification_iff ⟨2, none, [⟨"A", [Cell.number 1, Cell.number 2]⟩,
      ⟨"B", [Cell.text "x", Cell.text "y"]⟩, ⟨"C", [Cell.number 3, Cell.number 4]⟩]⟩ ⟨""⟩
    [⟨"A", CType.number⟩, ⟨"B", CType.text⟩, ⟨"C", CType.number⟩] (by decide)
    (by unfold Table.WF; decide) (by decide)).2.2.1 0 1 (by decide) (by decide) (by decide)
    (by decide)).2⟩

theorem coerceCols_map_name (ic : InputColumns) (pn : String) (cols : List TColumn) :
    (coerceCols ic pn cols).map (fun c => c.name) = cols.map (fun c => c.name) := by
  unfold coerceCols
  split
  · rw [List.map_map]
    apply List.map_congr_left
    intro c hc
    show (if lookupType ic c.name ≠ CType.text then coerceCol c else c).name = c.name
    by_cases h : lookupType ic c.name ≠ CType.text
    · rw [if_pos h]
      rfl
    · rw [if_neg h]
  · rfl

/-- C1 counterexample: with a text pivot and mixed non-pivot types
(`B` numeric, `C` text), the numeric cell is coerced to text before the
transpose, so the output cell holds the text `"3"` and not the original
number `3` — the claim's "equals the original cell value" fails as
stated. -/
theorem c1_counterexample :
    ((render ⟨1, none, [⟨"A", [Cell.text "h"]⟩, ⟨"B", [Cell.number 3]⟩, ⟨"C", [Cell.text "x"]⟩]⟩
        ⟨""⟩ [⟨"A", CType.text⟩, ⟨"B", CType.number⟩, ⟨"C", CType.text⟩]).1.tableOf.cols.getD 1
        ⟨"", []⟩).cells.getD 0 Cell.null = Cell.text "3" ∧
    (((⟨1, none, [⟨"A", [Cell.text "h"]⟩, ⟨"B", [Cell.number 3]⟩, ⟨"C", [Cell.text "x"]⟩]⟩ :
        Table).cols.tail.getD 0 ⟨"", []⟩).cells.getD 0 Cell.null = Cell.number 3) ∧
    Cell.text "3" ≠ Cell.number 3 := by
  decide

/-- C1 (amended): for a well-formed table with at least one (uniquely
named) column, the output columns are labeled by the sanitized header
names; there is one output row per original non-pivot column, in original
order, with output column 0 holding the original column names; and the
cell at output row `k`, output column `r + 1` equals the original cell at
row `r` of non-pivot column `k` — coerced to its text representation
(missing staying missing) when the mixed-type coercion applies to that
column, and unchanged otherwise. -/
theorem c1_transpose_amended (t : Table) (p : Params) (ic : InputColumns)
    (hwf : Table.WF t) (hne : t.cols ≠ [])
    (hnd : (t.cols.map (fun c => c.name)).Nodup) :
    ((render t p ic).1.tableOf.cols.map (fun c => c.name) =
      (genFor p ((truncIfNeeded t).cols.headD ⟨"", []⟩)).names) ∧
    (genFor p ((truncIfNeeded t).cols.headD ⟨"", []⟩)).names.length =
      min t.nRows settings.MAX_COLUMNS_PER_TABLE + 1 ∧
    (render t p ic).1.tableOf.nRows = t.cols.tail.length ∧
    ((render t p ic).1.tableOf.cols.headD ⟨"", []⟩).cells =
      t.cols.tail.map (fun c => Cell.text c.name) ∧
    (∀ r k, r < min t.nRows settings.MAX_COLUMNS_PER_TABLE → k < t.cols.tail.length →
      ((render t p ic).1.tableOf.cols.getD (r + 1) ⟨"", []⟩).cells.getD k Cell.null =
        (if 1 < (nonPivotTypes ic ((t.cols.headD ⟨"", []⟩).name)).length ∧
            lookupType ic ((t.cols.tail.getD k ⟨"", []⟩).name) ≠ CType.text
         then coerceCell ((t.cols.tail.getD k ⟨"", []⟩).cells.getD r Cell.null)
         else (t.cols.tail.getD k ⟨"", []⟩).cells.getD r Cell.null)) := by
  obtain ⟨c0, rest, hc⟩ : ∃ c0 rest, t.cols = c0 :: rest := by
    cases hcols : t.cols with
    | nil => exact absurd hcols hne
    | cons a b => exact ⟨a, b, rfl⟩
  refine ⟨?_, genFor_names_length_of_wf t p hwf c0 rest hc, ?_, ?_, ?_⟩
  · rw [render_tableOf t p ic hne,
      transposeTable_map_name _ _ (genFor_names_ne_nil _ _)]
  · rw [render_tableOf t p ic hne, transposeTable_nRows,
      truncIfNeeded_dropped t c0 rest hc hwf hnd, coerceCols_length, List.length_map,
      hc, List.tail_cons]
  · rw [render_tableOf t p ic hne, truncIfNeeded_dropped t c0 rest hc hwf hnd,
      transposeTable_head_cells]
    rw [hc, List.tail_cons]
    have hsplit : ∀ (l : List TColumn),
        l.map (fun c => Cell.text c.name) = (l.map (fun c => c.name)).map Cell.text := by
      intro l
      rw [List.map_map]
      rfl
    rw [hsplit, hsplit, coerceCols_map_name]
    apply congrArg (List.map Cell.text)
    rw [List.map_map]
    apply List.map_congr_left
    intro c hcm
    rfl
  · intro r k hr hk
    rw [hc, List.tail_cons] at hk
    rw [hc, List.tail_cons, List.headD_cons]
    exact render_cell_eq t p ic hwf c0 rest hc hnd r k hr hk

/-- Witness for C1 (amended) at the spec's happy-path scenario table. -/
theorem c1_transpose_amended_witness :
    (render ⟨2, none, [⟨"A", [Cell.text "b", Cell.text "c"]⟩, ⟨"B", [Cell.text "c", Cell.text "d"]⟩,
        ⟨"C", [Cell.text "d", Cell.text "e"]⟩]⟩ ⟨""⟩
      [⟨"A", CType.text⟩, ⟨"B", CType.text⟩, ⟨"C", CType.text⟩]).1.tableOf.cols.map
        (fun c => c.name) =
      (genFor ⟨""⟩ ((truncIfNeeded ⟨2, none, [⟨"A", [Cell.text "b", Cell.text "c"]⟩,
        ⟨"B", [Cell.text "c", Cell.text "d"]⟩,
        ⟨"C", [Cell.text "d", Cell.text "e"]⟩]⟩).cols.headD ⟨"", []⟩)).names :=
  (c1_transpose_amended ⟨2, none, [⟨"A", [Cell.text "b", Cell.text "c"]⟩,
      ⟨"B", [Cell.text "c", Cell.text "d"]⟩, ⟨"C", [Cell.text "d", Cell.text "e"]⟩]⟩ ⟨""⟩
    [⟨"A", CType.text⟩, ⟨"B", CType.text⟩, ⟨"C", CType.text⟩]
    (by unfold Table.WF; decide) (by decide) (by decide)).1

/-- C10: even with a text-typed pivot (no header-coercion warning), a
missing value at row `r` of the pivot column is mapped to the empty string
before name generation: the sanitizer candidate at position `r + 1` is
`""`, the generated name at that position carries the defaulted flag (so
it is a positional `Column N` default, possibly numbered), and the whole
name generation is identical to that of the same table with an explicit
empty-string header value at row `r`. -/
theorem c10_null_headers_defaulted (t : Table) (p : Params) (ic : InputColumns)
    (hne : t.cols ≠ []) (hwf : Table.WF t)
    (htext : lookupType ic ((t.cols.headD ⟨"", []⟩).name) = CType.text)
    (r : Nat) (hr : r < min t.nRows settings.MAX_COLUMNS_PER_TABLE)
    (hnull : (t.cols.headD ⟨"", []⟩).cells.getD r Cell.null = Cell.null) :
    (headerVals ((truncIfNeeded t).cols.headD ⟨"", []⟩)).getD r "" = "" ∧
    ((gen_unique_clean_colnames
        ((if p.firstcolname = "" then (t.cols.headD ⟨"", []⟩).name else p.firstcolname) ::
          headerVals ((truncIfNeeded t).cols.headD ⟨"", []⟩))).getD (r + 1)
        ⟨"", false, false, false, false⟩).is_default = true ∧
    genFor p ((truncIfNeeded (setPivotCell t r (Cell.text ""))).cols.headD ⟨"", []⟩) =
      genFor p ((truncIfNeeded t).cols.headD ⟨"", []⟩) := by
  obtain ⟨c0, rest, hc⟩ : ∃ c0 rest, t.cols = c0 :: rest := by
    cases hcols : t.cols with
    | nil => exact absurd hcols hne
    | cons a b => exact ⟨a, b, rfl⟩
  have hc0len : c0.cells.length = t.nRows := hwf c0 (by rw [hc]; exact List.mem_cons_self _ _)
  have hc0null : c0.cells.getD r Cell.null = Cell.null := by
    rw [hc, List.headD_cons] at hnull
    exact hnull
  have hhead := truncIfNeeded_head t c0 rest hc hwf
  have hv0 : (headerVals ((truncIfNeeded t).cols.headD ⟨"", []⟩)).getD r "" = "" := by
    rw [hhead]
    unfold headerVals
    simp only []
    rw [List.getD_eq_getElem _ _ (by
      simp only [List.length_map, List.length_take]
      omega)]
    rw [List.getElem_map, List.getElem_take]
    rw [show c0.cells[r] = c0.cells.getD r Cell.null from
      (List.getD_eq_getElem _ _ (by omega)).symm]
    rw [hc0null]
    rfl
  refine ⟨hv0, ?_, ?_⟩
  · rw [show (gen_unique_clean_colnames
        ((if p.firstcolname = "" then (t.cols.headD ⟨"", []⟩).name else p.firstcolname) ::
          headerVals ((truncIfNeeded t).cols.headD ⟨"", []⟩))) = processNames
        ((if p.firstcolname = "" then (t.cols.headD ⟨"", []⟩).name else p.firstcolname) ::
          headerVals ((truncIfNeeded t).cols.headD ⟨"", []⟩)) 1 [] from rfl]
    have hlenv : r < (headerVals ((truncIfNeeded t).cols.headD ⟨"", []⟩)).length := by
      rw [hhead]
      unfold headerVals
      simp only [List.length_map, List.length_take]
      omega
    rw [processNames_getD_is_default _ 1 [] (r + 1) (by
      simp only [List.length_cons]
      omega)]
    rw [List.getD_cons_succ, hv0]
    rfl
  · have hnrows : (setPivotCell t r (Cell.text "")).nRows = t.nRows := rfl
    have hcols' : (setPivotCell t r (Cell.text "")).cols =
        ⟨c0.name, c0.cells.set r (Cell.text "")⟩ :: rest := by
      simp [setPivotCell, hc]
    have hwf' : Table.WF (setPivotCell t r (Cell.text "")) := by
      intro c hcmem
      rw [hcols'] at hcmem
      rw [hnrows]
      rcases List.mem_cons.mp hcmem with rfl | hcm
      · simp only [List.length_set]
        exact hc0len
      · exact hwf c (by rw [hc]; exact List.mem_cons_of_mem _ hcm)
    have hhead' := truncIfNeeded_head (setPivotCell t r (Cell.text ""))
      ⟨c0.name, c0.cells.set r (Cell.text "")⟩ rest hcols' hwf'
    rw [hhead, hhead']
    unfold genFor headerVals
    simp only [hnrows]
    congr 1
    apply List.ext_getElem
    · simp [List.length_set]
    · intro i h1 h2
      simp only [List.getElem_map, List.getElem_take, List.getElem_set]
      by_cases hi : r = i
      · subst hi
        rw [if_pos rfl]
        rw [show c0.cells[r] = c0.cells.getD r Cell.null from
          (List.getD_eq_getElem _ _ (by omega)).symm]
        rw [hc0null]
        rfl
      · rw [if_neg hi]

/-- Witness for C10 at a two-column table whose text pivot holds a missing
value: the candidate is empty, the name is defaulted, and generation
matches the explicit empty string. -/
theorem c10_null_headers_defaulted_witness :
    ((headerVals ((truncIfNeeded ⟨1, none, [⟨"A", [Cell.null]⟩, ⟨"B", [Cell.text "b"]⟩]⟩).cols.headD
        ⟨"", []⟩)).getD 0 "" = "") ∧
    ((gen_unique_clean_colnames
        ((if ("" : String) = "" then
            ((⟨1, none, [⟨"A", [Cell.null]⟩, ⟨"B", [Cell.text "b"]⟩]⟩ : Table).cols.headD
              ⟨"", []⟩).name
          else "") ::
          headerVals ((truncIfNeeded ⟨1, none, [⟨"A", [Cell.null]⟩,
            ⟨"B", [Cell.text "b"]⟩]⟩).cols.headD ⟨"", []⟩))).getD 1
        ⟨"", false, false, false, false⟩).is_default = true ∧
    genFor ⟨""⟩ ((truncIfNeeded (setPivotCell ⟨1, none, [⟨"A", [Cell.null]⟩,
        ⟨"B", [Cell.text "b"]⟩]⟩ 0 (Cell.text ""))).cols.headD ⟨"", []⟩) =
      genFor ⟨""⟩ ((truncIfNeeded ⟨1, none, [⟨"A", [Cell.null]⟩,
        ⟨"B", [Cell.text "b"]⟩]⟩).cols.headD ⟨"", []⟩) :=
  c10_null_headers_defaulted ⟨1, none, [⟨"A", [Cell.null]⟩, ⟨"B", [Cell.text "b"]⟩]⟩ ⟨""⟩
    [⟨"A", CType.text⟩, ⟨"B", CType.text⟩] (by decide) (by unfold Table.WF; decide)
    (by decide) 0 (by decide) (by decide)
